import Mathlib

/-!
Verification development for the profile snapshot/restore engine and the
publish orchestration of the `cli-profile-manager` repository.

The engine (`src/utils/snapshot.js` and its TypeScript twin
`src/providers/claude/constants.ts`) is embedded shallowly:

* The live filesystem is a finite tree `FsNode`: a file carries its byte
  content (`List Nat`), a directory carries an ordered entry list
  (`List (String × FsNode)`), mirroring `readdirSync` enumeration order.
* Relative paths are represented by their `/`-separated segment lists
  (`List String`); the source normalizes every path with
  `path.split(sep).join('/')` before comparing, so a path is used only
  through its segments and their `/`-join (`joinPath`).
* JavaScript string methods used by the matchers are given their direct
  character-list semantics (`strStartsWith` = `String.prototype.startsWith`,
  `strEndsWith` = `endsWith`, `strDrop s 1` = `slice(1)`,
  `strDropRight s n` = `slice(0, -n)`, `strIncludes` = `includes`).
* Stateful operations thread the relevant directory trees explicitly and
  return the state together with an `Option String` error (a thrown
  `Error`); on a throw the returned state is the state at the throw site.
* Environmental effects (clock, `claude --version`, JSON serialization and
  parsing, network, prompts) enter as explicit parameters or oracle fields.
-/

/-! ## JavaScript string primitives -/

/-- `s.startsWith(pre)` on JavaScript strings. -/
def strStartsWith (s pre : String) : Bool := pre.data.isPrefixOf s.data

/-- `s.endsWith(suf)` on JavaScript strings. -/
def strEndsWith (s suf : String) : Bool := suf.data.isSuffixOf s.data

/-- `s.slice(n)` for `n ≥ 0`. -/
def strDrop (s : String) (n : Nat) : String := String.mk (s.data.drop n)

/-- `s.slice(0, -n)` for `n ≥ 1`. -/
def strDropRight (s : String) (n : Nat) : String :=
  String.mk (s.data.take (s.data.length - n))

/-- JavaScript string concatenation. -/
def strAppend (a b : String) : String := String.mk (a.data ++ b.data)

/-- Helper for `strIncludes`: does `pat` occur in the character list. -/
def strIncludesAux (pat : List Char) : List Char → Bool
  | [] => pat.isEmpty
  | c :: rest => pat.isPrefixOf (c :: rest) || strIncludesAux pat rest

/-- `s.includes(pat)` on JavaScript strings. -/
def strIncludes (s pat : String) : Bool := strIncludesAux pat.data s.data

/-- `segments.join('/')`: the normalized relative-path string the matchers
compare against (`relPath.split(sep).join('/')` in the source). -/
def joinPath (segs : List String) : String :=
  String.mk (List.intercalate ['/'] (segs.map String.data))

/-- `itemName.replace(/\.[^.]+$/, '')` from `deriveContents`: strip a final
dot-extension (a dot followed by one or more non-dot characters at the end
of the name); leave the name unchanged when no such suffix exists. -/
def stripExt (s : String) : String :=
  let rev := s.data.reverse
  let ext := rev.takeWhile (fun c => c ≠ '.')
  match rev.drop ext.length with
  | '.' :: restRev => if ext.isEmpty then s else String.mk restRev.reverse
  | _ => s

/-! ## Filesystem trees -/

/-- A filesystem object: a regular file with its byte content, or a
directory with its ordered list of named children. -/
inductive FsNode where
  | file (content : List Nat)
  | dir (entries : List (String × FsNode))

/-- Entry list of a directory. -/
abbrev FsEntries := List (String × FsNode)

/-- Replace the entry called `k` (first occurrence) by `v`, appending a new
entry when no entry has that name.  This is the effect of creating or
overwriting the child `k` of a directory. -/
def setEntry : FsEntries → String → FsNode → FsEntries
  | [], k, v => [(k, v)]
  | (k', v') :: rest, k, v =>
    if k' = k then (k, v) :: rest else (k', v') :: setEntry rest k v

/-- Remove every entry called `name` (`rmSync(path, {recursive, force})`
applied to the child `name`; real directories hold at most one entry per
name). -/
def removeEntries (es : FsEntries) (name : String) : FsEntries :=
  es.filter fun e => !(e.1 == name)

/-- Resolve a segment path inside an entry list.  The empty path is not a
valid reference to an entry and resolves to `none`. -/
def lookupPath : FsEntries → List String → Option FsNode
  | _, [] => none
  | es, seg :: rest =>
    match List.lookup seg es with
    | none => none
    | some node =>
      match rest, node with
      | [], _ => some node
      | _ :: _, .file _ => none
      | _ :: _, .dir es' => lookupPath es' rest

/-- Well-formedness of an entry list: entry names are distinct at every
level (true of every real directory). -/
def wfEntries : FsEntries → Bool
  | [] => true
  | (name, node) :: rest =>
    !(rest.any fun e => e.1 == name) &&
    (match node with
     | .file _ => true
     | .dir es => wfEntries es) &&
    wfEntries rest
termination_by es => sizeOf es

/-! ## Pattern matcher and snapshot walk (`src/utils/snapshot.js`) -/

/-- `DEFAULT_EXCLUDES` (= `CLAUDE_EXCLUDES` in
`src/providers/claude/constants.ts`): files and patterns excluded by
default — secrets, caches, and Claude Code plugin infrastructure. -/
def DEFAULT_EXCLUDES : List String :=
  [".credentials", ".auth", "*.key", "*.pem", "*.secret", "oauth_token*",
   ".cache", "node_modules", ".git",
   "plugins/cache", "plugins/install-counts-cache", "plugins/installed_plugins",
   "plugins/known_marketplaces", "plugins/marketplaces"]

/-- `PLUGIN_INFRA_DIRS`: plugin subdirectories that are Claude Code
infrastructure, preserved by `cleanProfileContent`. -/
def PLUGIN_INFRA_DIRS : List String :=
  ["cache", "install-counts-cache", "installed_plugins",
   "known_marketplaces", "marketplaces"]

/-- `SAFE_INCLUDES`: the allowlist of files that may enter a snapshot. -/
def SAFE_INCLUDES : List String :=
  ["CLAUDE.md", "commands", "commands/**", "skills", "skills/**",
   "hooks", "hooks/**", "plugins", "plugins/**", "mcp.json",
   "mcp_servers", "mcp_servers/**", "agents", "agents/**"]

/-- `isAllowed(name, path)`: the entry is in the allowlist — either a
subtree pattern `dir + "/**"` matched by the directory itself or any
descendant, or an exact name/path match. -/
def isAllowed (name : String) (relPath : List String) : Bool :=
  let normalizedPath := joinPath relPath
  SAFE_INCLUDES.any fun pattern =>
    if strEndsWith pattern "/**" then
      strStartsWith normalizedPath (strAppend (strDropRight pattern 3) "/") ||
        normalizedPath == strDropRight pattern 3
    else
      name == pattern || normalizedPath == pattern

/-- `shouldExclude(name, path, excludes)`: the entry matches a deny rule —
a `*.ext` suffix wildcard, an exact name or path match, or a trailing-`*`
prefix wildcard. -/
def shouldExclude (name : String) (relPath : List String) (excludes : List String) : Bool :=
  let normalizedPath := joinPath relPath
  excludes.any fun pattern =>
    if strStartsWith pattern "*." then
      strEndsWith name (strDrop pattern 1)
    else if name == pattern || normalizedPath == pattern then true
    else strEndsWith pattern "*" && strStartsWith name (strDropRight pattern 1)

/-- The recursive `walk` of `getFilesToArchive`: iterate the entries of the
current directory; skip an entry (pruning its whole subtree) unless it
passes `isAllowed` and fails `shouldExclude`; descend into surviving
directories and collect surviving files. -/
def walkFiles (excludes : List String) : FsEntries → List String → List (List String)
  | [], _ => []
  | (name, node) :: rest, relativePath =>
    let relPath := relativePath ++ [name]
    if !isAllowed name relPath then walkFiles excludes rest relativePath
    else if shouldExclude name relPath excludes then walkFiles excludes rest relativePath
    else
      match node with
      | .dir es => walkFiles excludes es relPath ++ walkFiles excludes rest relativePath
      | .file _ => relPath :: walkFiles excludes rest relativePath
termination_by es _ => sizeOf es

/-- The entries the walk visits, i.e. the entries on which `statSync` is
executed: exactly those that pass both filters; children of pruned
directories are never reached. -/
def walkVisited (excludes : List String) : FsEntries → List String → List (List String)
  | [], _ => []
  | (name, node) :: rest, relativePath =>
    let relPath := relativePath ++ [name]
    if !isAllowed name relPath then walkVisited excludes rest relativePath
    else if shouldExclude name relPath excludes then walkVisited excludes rest relativePath
    else
      match node with
      | .dir es => relPath :: (walkVisited excludes es relPath ++ walkVisited excludes rest relativePath)
      | .file _ => relPath :: walkVisited excludes rest relativePath
termination_by es _ => sizeOf es

/-- `getFilesToArchive(dir, includeSecrets)`: walk the configuration
directory (given by its entry list) with the active deny list — empty when
`includeSecrets` is true, `DEFAULT_EXCLUDES` otherwise. -/
def getFilesToArchive (dir : FsEntries) (includeSecrets : Bool) : List (List String) :=
  walkFiles (if includeSecrets then [] else DEFAULT_EXCLUDES) dir []

/-- The walk with no deny list at all, filtering by the allowlist only.
Stated from the spec sentence "when `includeSecrets` is true the deny list
is empty, so every allow-listed file is captured": the claim compares
`getFilesToArchive dir true` against this function. -/
def allowOnlyWalk : FsEntries → List String → List (List String)
  | [], _ => []
  | (name, node) :: rest, relativePath =>
    let relPath := relativePath ++ [name]
    if !isAllowed name relPath then allowOnlyWalk rest relativePath
    else
      match node with
      | .dir es => allowOnlyWalk es relPath ++ allowOnlyWalk rest relativePath
      | .file _ => relPath :: allowOnlyWalk rest relativePath
termination_by es _ => sizeOf es

/-! ## Content categorizer (`deriveContents`) -/

/-- The `contents` record: category names mapped to item-name sequences, in
JavaScript object insertion order. -/
abbrev Contents := List (String × List String)

/-- `if (!contents[cat]) contents[cat] = []; contents[cat].push(item)` —
the unconditional push used for the recognized singleton files. -/
def pushItem : Contents → String → String → Contents
  | [], cat, item => [(cat, [item])]
  | (c, items) :: rest, cat, item =>
    if c = cat then (c, items ++ [item]) :: rest
    else (c, items) :: pushItem rest cat item

/-- `if (!contents[cat]) contents[cat] = [];
if (!contents[cat].includes(item)) contents[cat].push(item)` — the
deduplicating push used for the category/item rule. -/
def pushItemDedup : Contents → String → String → Contents
  | [], cat, item => [(cat, [item])]
  | (c, items) :: rest, cat, item =>
    if c = cat then (c, if items.contains item then items else items ++ [item]) :: rest
    else (c, items) :: pushItemDedup rest cat item

/-- One iteration of the `deriveContents` loop, on the segment list of the
normalized path: the two recognized singleton top-level files go to their
fixed buckets; any path with at least two segments maps its first segment
to a category and its extension-stripped second segment to an item name;
everything else contributes nothing. -/
def deriveStep (contents : Contents) (parts : List String) : Contents :=
  if parts = ["CLAUDE.md"] then pushItem contents "instructions" "CLAUDE.md"
  else if parts = ["mcp.json"] then pushItem contents "mcp" "mcp.json"
  else
    match parts with
    | category :: item :: _ => pushItemDedup contents category (stripExt item)
    | _ => contents

/-- `deriveContents(files)` from `src/utils/snapshot.js` (identical in
`src/providers/claude/constants.ts`); each file path is represented by its
`/`-split segment list. -/
def deriveContents (files : List (List String)) : Contents :=
  files.foldl deriveStep []

/-- The bucket of a category in a `contents` record (`[]` when absent). -/
def bucket (contents : Contents) (category : String) : List String :=
  (List.lookup category contents).getD []

/-- `deriveContents` as the claim sentence states it: identical to the
source function except that the two recognized singleton files are also
pushed through the deduplicating push, so that "repeated item names within
a category are deduplicated" without exception.  The claim asserts
`deriveContents` behaves like this function. -/
def deriveContentsClaimed (files : List (List String)) : Contents :=
  files.foldl
    (fun contents parts =>
      if parts = ["CLAUDE.md"] then pushItemDedup contents "instructions" "CLAUDE.md"
      else if parts = ["mcp.json"] then pushItemDedup contents "mcp" "mcp.json"
      else
        match parts with
        | category :: item :: _ => pushItemDedup contents category (stripExt item)
        | _ => contents)
    []

/-! ## Snapshot restorer state operations -/

/-- The content directories wiped entirely by `cleanProfileContent`. -/
def contentDirs : List String := ["commands", "skills", "hooks", "mcp_servers", "agents"]

/-- The individual content files removed by `cleanProfileContent`. -/
def contentFiles : List String := ["CLAUDE.md", "mcp.json"]

/-- The `rmSync(..., {recursive: true, force: true})` loop over
`contentDirs`: remove each named top-level entry if present. -/
def rmContentDirs (es : FsEntries) : FsEntries :=
  contentDirs.foldl removeEntries es

/-- The `rmSync(..., {force: true})` loop over `contentFiles`: remove each
named top-level file if present.  `rmSync` without `recursive` throws
`EISDIR` when the entry is a directory; the pair carries the entry list at
the throw site. -/
def rmContentFiles : List String → FsEntries → FsEntries × Option String
  | [], es => (es, none)
  | f :: rest, es =>
    match List.lookup f es with
    | some (.dir _) => (es, some (strAppend "EISDIR: " f))
    | some (.file _) => rmContentFiles rest (removeEntries es f)
    | none => rmContentFiles rest es

/-- `cleanProfileContent(claudeDir)`: wipe the fixed content directories;
inside `plugins` remove every entry whose name is not in
`PLUGIN_INFRA_DIRS` (preserving Claude Code infrastructure); remove the
individual content files.  `readdirSync` on a non-directory `plugins`
throws `ENOTDIR`. -/
def cleanProfileContent (es : FsEntries) : FsEntries × Option String :=
  let es1 := rmContentDirs es
  match List.lookup "plugins" es1 with
  | some (.file _) => (es1, some "ENOTDIR: plugins")
  | some (.dir pluginEntries) =>
    rmContentFiles contentFiles
      (setEntry es1 "plugins"
        (.dir (pluginEntries.filter fun e => PLUGIN_INFRA_DIRS.contains e.1)))
  | none => rmContentFiles contentFiles es1

/-- `copyDirMerge(src, dest)`: recursively copy the source entries onto the
destination, creating missing directories and overwriting files, leaving
other destination entries alone.  `mkdirSync` over an existing file throws
`EEXIST`; `writeFileSync` over an existing directory throws `EISDIR`; the
pair carries the destination entries at the throw site. -/
def copyDirMerge : FsEntries → FsEntries → FsEntries × Option String
  | [], dest => (dest, none)
  | (name, .file c) :: rest, dest =>
    match List.lookup name dest with
    | some (.dir _) => (dest, some (strAppend "EISDIR: " name))
    | _ => copyDirMerge rest (setEntry dest name (.file c))
  | (name, .dir srcEs) :: rest, dest =>
    match List.lookup name dest with
    | some (.file _) => (dest, some (strAppend "EEXIST: " name))
    | some (.dir destEs) =>
      match copyDirMerge srcEs destEs with
      | (merged, some e) => (setEntry dest name (.dir merged), some e)
      | (merged, none) => copyDirMerge rest (setEntry dest name (.dir merged))
    | none =>
      match copyDirMerge srcEs [] with
      | (merged, some e) => (setEntry dest name (.dir merged), some e)
      | (merged, none) => copyDirMerge rest (setEntry dest name (.dir merged))
termination_by src _ => sizeOf src

/-- `copyProfileFiles(srcDir, destDir)`: like `copyDirMerge` at the profile
root, but the metadata file `profile.json` is skipped. -/
def copyProfileFiles : FsEntries → FsEntries → FsEntries × Option String
  | [], dest => (dest, none)
  | (name, node) :: rest, dest =>
    if name = "profile.json" then copyProfileFiles rest dest
    else
      match node with
      | .file c =>
        match List.lookup name dest with
        | some (.dir _) => (dest, some (strAppend "EISDIR: " name))
        | _ => copyProfileFiles rest (setEntry dest name (.file c))
      | .dir srcEs =>
        match List.lookup name dest with
        | some (.file _) => (dest, some (strAppend "EEXIST: " name))
        | some (.dir destEs) =>
          match copyDirMerge srcEs destEs with
          | (merged, some e) => (setEntry dest name (.dir merged), some e)
          | (merged, none) => copyProfileFiles rest (setEntry dest name (.dir merged))
        | none =>
          match copyDirMerge srcEs [] with
          | (merged, some e) => (setEntry dest name (.dir merged), some e)
          | (merged, none) => copyProfileFiles rest (setEntry dest name (.dir merged))

/-- The mutable state seen by `extractSnapshot`: the live configuration
directory (`claudeDir`; `none` when it does not exist) and the backup
location. -/
structure RestoreState where
  target : Option FsNode
  backup : Option FsNode

/-- Clean-then-merge phase of `extractSnapshot`, after the optional backup
and `mkdirSync(claudeDir)`: `cleanProfileContent` then `copyProfileFiles`. -/
def extractInstall (profileEntries targetEntries : FsEntries) (backup : Option FsNode) :
    RestoreState × Except String Unit :=
  match cleanProfileContent targetEntries with
  | (cleaned, some e) => ({ target := some (.dir cleaned), backup := backup }, .error e)
  | (cleaned, none) =>
    match copyProfileFiles profileEntries cleaned with
    | (merged, some e) => ({ target := some (.dir merged), backup := backup }, .error e)
    | (merged, none) => ({ target := some (.dir merged), backup := backup }, .ok ())

/-- `mkdirSync(claudeDir, {recursive: true})` followed by the install
phase; `mkdirSync` over an existing file throws. -/
def extractAfterBackup (profileEntries : FsEntries) (s : RestoreState) :
    RestoreState × Except String Unit :=
  match s.target with
  | some (.file _) => (s, .error "EEXIST: mkdir")
  | some (.dir targetEntries) => extractInstall profileEntries targetEntries s.backup
  | none => extractInstall profileEntries [] s.backup

/-- `extractSnapshot(profileDir, claudeDir, backupDir?)` from
`src/providers/claude/constants.ts` (the same sequence as
`src/utils/snapshot.js` without the `--force` prompt gate): validate the
profile, copy the whole live tree to the backup location when a backup is
requested and the live directory exists (`cpSync` failure — modelled by
`backupOk = false` — aborts before any destructive step), then create the
live directory, clean old profile content, and merge-copy the profile
files. -/
def extractSnapshot (profile : Option FsNode) (backupRequested backupOk : Bool)
    (s : RestoreState) : RestoreState × Except String Unit :=
  match profile with
  | some (.dir profileEntries) =>
    if (List.lookup "profile.json" profileEntries).isSome then
      if backupRequested && s.target.isSome then
        if backupOk then
          extractAfterBackup profileEntries { s with backup := s.target }
        else (s, .error "backup copy failed")
      else extractAfterBackup profileEntries s
    else (s, .error "Profile not found or corrupted")
  | _ => (s, .error "Profile not found or corrupted")

/-! ## Snapshot writer (`createSnapshot`) -/

/-- The metadata record persisted as `profile.json`. -/
structure ProfileMeta where
  name : String
  version : String
  description : String
  tags : List String
  createdAt : String
  claudeVersion : String
  platform : String
  includesSecrets : Bool
  files : List (List String)
  contents : Contents
deriving DecidableEq

/-- Environmental inputs of `createSnapshot`: timestamp, CLI version,
platform, the JSON serializer for the metadata record, and the JSON parser
used by the mcp enrichment (`none` models a parse failure). -/
structure SnapEnv where
  createdAt : String
  claudeVersion : String
  platform : String
  encodeMeta : ProfileMeta → List Nat
  parseMcpNames : List Nat → Option (List String)

/-- Replace the value of the first entry of a category (used by the mcp
enrichment `contents.mcp = serverNames`). -/
def setBucket : Contents → String → List String → Contents
  | [], cat, items => [(cat, items)]
  | (c, old) :: rest, cat, items =>
    if c = cat then (cat, items) :: rest else (c, old) :: setBucket rest cat items

/-- `deriveContentsWithMcp(files, claudeDir)`: derive contents, then — when
an `mcp` bucket is present and `mcp.json` exists — try to replace the
generic bucket by the configured server names; any read/parse failure
keeps the fallback. -/
def deriveContentsWithMcp (parse : List Nat → Option (List String))
    (files : List (List String)) (claudeEntries : FsEntries) : Contents :=
  let contents := deriveContents files
  match List.lookup "mcp" contents with
  | none => contents
  | some _ =>
    match lookupPath claudeEntries ["mcp.json"] with
    | some (.file c) =>
      match parse c with
      | some serverNames =>
        if serverNames.length > 0 then setBucket contents "mcp" serverNames else contents
      | none => contents
    | _ => contents

/-- Write a file at a segment path inside an entry list, creating missing
parent directories (`mkdirSync(dirname(destPath), {recursive: true})` then
`writeFileSync`); `none` when a path component is an existing file or the
final component an existing directory. -/
def insertFileAt : FsEntries → List String → List Nat → Option FsEntries
  | _, [], _ => none
  | es, [name], c =>
    match List.lookup name es with
    | some (.dir _) => none
    | _ => some (setEntry es name (.file c))
  | es, name :: seg :: rest, c =>
    match List.lookup name es with
    | some (.file _) => none
    | some (.dir inner) =>
      match insertFileAt inner (seg :: rest) c with
      | some inner2 => some (setEntry es name (.dir inner2))
      | none => none
    | none =>
      match insertFileAt [] (seg :: rest) c with
      | some inner2 => some (setEntry es name (.dir inner2))
      | none => none

/-- The copy loop of `createSnapshot`: for each selected relative path,
read the bytes from the configuration tree and write them (with parent
creation) into the profile tree being built. -/
def copyFilesToProfile (src : FsEntries) : List (List String) → FsEntries →
    FsEntries × Option String
  | [], acc => (acc, none)
  | p :: rest, acc =>
    match lookupPath src p with
    | some (.file c) =>
      match insertFileAt acc p c with
      | some acc2 => copyFilesToProfile src rest acc2
      | none => (acc, some "copy failed")
    | _ => (acc, some "read failed")

/-- The state seen by `createSnapshot`: the configuration directory and the
destination profile directory (each `none` when it does not exist). -/
structure SnapState where
  claudeDir : Option FsNode
  profileDir : Option FsNode

/-- `createSnapshot(profileName, options)`: fail with `NotFound` when the
configuration directory is missing and with the `AlreadyExists` error when
the destination profile directory already exists; otherwise create the
profile directory, select files with `getFilesToArchive`, copy them,
derive `contents`, and persist `profile.json`. -/
def createSnapshot (env : SnapEnv) (profileName description : String)
    (tags : List String) (includeSecrets : Bool) (s : SnapState) :
    SnapState × Except String ProfileMeta :=
  match s.claudeDir with
  | none => (s, .error "Claude directory not found")
  | some claudeRoot =>
    match s.profileDir with
    | some _ =>
      (s, .error (strAppend (strAppend "Profile \"" profileName)
        "\" already exists. Use a different name or delete the existing one."))
    | none =>
      match claudeRoot with
      | .file _ => ({ s with profileDir := some (.dir []) }, .error "ENOTDIR: claudeDir")
      | .dir claudeEntries =>
        let files := getFilesToArchive claudeEntries includeSecrets
        match copyFilesToProfile claudeEntries files [] with
        | (profileEntries, some e) =>
          ({ s with profileDir := some (.dir profileEntries) }, .error e)
        | (profileEntries, none) =>
          let metadata : ProfileMeta :=
            { name := profileName
              version := "1.0.0"
              description := description
              tags := tags
              createdAt := env.createdAt
              claudeVersion := env.claudeVersion
              platform := env.platform
              includesSecrets := includeSecrets
              files := files
              contents := deriveContentsWithMcp env.parseMcpNames files claudeEntries }
          match insertFileAt profileEntries ["profile.json"] (env.encodeMeta metadata) with
          | some profileEntries2 =>
            ({ s with profileDir := some (.dir profileEntries2) }, .ok metadata)
          | none =>
            ({ s with profileDir := some (.dir profileEntries) }, .error "write failed")

/-! ## Publish orchestrator (`src/commands/publish.js`,
`src/providers/claude/ClaudePublishManager.ts`) -/

/-- Externally observable steps of one publish invocation, in order. -/
inductive PubEvent where
  | credentialLookup
  | deviceFlowAuth
  | identityCheck
  | confirmPrompt
  | publishAttempt (useFork : Bool)
deriving DecidableEq

/-- Terminal outcome of one publish invocation. -/
inductive PubResult where
  | success (url : String)
  | notFound
  | invalidMetadata
  | noContent
  | identityFailed (msg : String)
  | aborted
  | fatal (msg : String)
deriving DecidableEq

/-- The external collaborators of the orchestrator, as deterministic
oracles: cached-credential lookup (absence is a valid result), device-flow
authentication, identity resolution, the user confirmation, and the
pull-request creation `doPublish token useFork` (an `Error` is its
message). -/
structure PubEnv where
  profileExists : Bool
  metadata : Option ProfileMeta
  cachedToken : Option String
  deviceAuth : Except String String
  username : String → Except String String
  confirm : Bool
  doPublish : String → Bool → Except String String

/-- `Object.values(contents).some(items => items && items.length > 0)`. -/
def hasContent (contents : Contents) : Bool :=
  contents.any fun kv => !kv.2.isEmpty

/-- `attemptPublish`: try `doPublish`; when it fails with a message
containing `403` and the attempt was not already fork-based, run device
flow authentication and retry exactly once with `useFork = true`; any
other failure, and a failed retry, is fatal (`process.exit(1)`). -/
def attemptPublish (env : PubEnv) (token : String) (useFork : Bool) :
    PubResult × List PubEvent :=
  match env.doPublish token useFork with
  | .ok url => (.success url, [.publishAttempt useFork])
  | .error msg =>
    if strIncludes msg "403" && !useFork then
      match env.deviceAuth with
      | .error e => (.fatal e, [.publishAttempt useFork, .deviceFlowAuth])
      | .ok deviceToken =>
        match env.doPublish deviceToken true with
        | .ok url =>
          (.success url, [.publishAttempt useFork, .deviceFlowAuth, .publishAttempt true])
        | .error retryMsg =>
          (.fatal retryMsg, [.publishAttempt useFork, .deviceFlowAuth, .publishAttempt true])
    else (.fatal msg, [.publishAttempt useFork])

/-- The tail of `publishProfile` after a token is in hand: verify identity,
display the summary, ask for confirmation, then `attemptPublish`. -/
def publishWithToken (env : PubEnv) (token : String) (useFork : Bool)
    (preEvents : List PubEvent) : PubResult × List PubEvent :=
  match env.username token with
  | .error e => (.identityFailed e, preEvents ++ [.identityCheck])
  | .ok _ =>
    if !env.confirm then (.aborted, preEvents ++ [.identityCheck, .confirmPrompt])
    else
      match attemptPublish env token useFork with
      | (r, evs) => (r, preEvents ++ [.identityCheck, .confirmPrompt] ++ evs)

/-- `publishProfile(name, options)`: existence and metadata validation,
the structural no-functional-content rejection, credential lookup with
device-flow fallback (which switches to fork mode), then identity check,
confirmation, and the publish attempt. -/
def publishProfile (env : PubEnv) : PubResult × List PubEvent :=
  if !env.profileExists then (.notFound, [])
  else
    match env.metadata with
    | none => (.invalidMetadata, [])
    | some metadata =>
      if !hasContent metadata.contents then (.noContent, [])
      else
        match env.cachedToken with
        | none =>
          match env.deviceAuth with
          | .error e => (.fatal e, [.credentialLookup, .deviceFlowAuth])
          | .ok token => publishWithToken env token true [.credentialLookup, .deviceFlowAuth]
        | some token => publishWithToken env token false [.credentialLookup]

/-! ## Claim-side predicates -/

/-- Is an event a publish attempt (used to bound the retry count). -/
def isPublishAttempt : PubEvent → Bool
  | .publishAttempt _ => true
  | _ => false

/-- The cleaned content set of `cleanProfileContent`, as the claims
describe it: everything under the fixed content directories, everything
under a non-preserved `plugins` entry, and the two top-level content
files. -/
def inCleanSet : List String → Bool
  | [] => false
  | [x] => contentDirs.contains x || contentFiles.contains x
  | x :: y :: _ => contentDirs.contains x || (x == "plugins" && !(PLUGIN_INFRA_DIRS.contains y))

/-- An entry passes the walk filters: allow-listed and not deny-listed. -/
def passesFilters (excludes : List String) (name : String) (relPath : List String) : Bool :=
  isAllowed name relPath && !shouldExclude name relPath excludes

/-- Every entry along a relative path passed the walk filters: for each
decomposition `p = q ++ n :: r`, the entry `n` at `q ++ [n]` passed.  A
path into a pruned (disallowed or denied) subtree never satisfies this. -/
def allPrefixesPass (excludes : List String) (p : List String) : Prop :=
  ∀ q n r, p = q ++ n :: r → passesFilters excludes n (q ++ [n]) = true

/-! ## Basic lemmas about entry lists and buckets -/

theorem lookup_cons_self {β : Type} (k : String) (v : β) (tl : List (String × β)) :
    List.lookup k ((k, v) :: tl) = some v := by
  simp [List.lookup]

theorem lookup_cons_ne {β : Type} (k k' : String) (v : β) (tl : List (String × β))
    (h : k' ≠ k) : List.lookup k' ((k, v) :: tl) = List.lookup k' tl := by
  have hb : (k' == k) = false := beq_eq_false_iff_ne.mpr h
  simp [List.lookup, hb]

theorem lookup_setEntry_self (es : FsEntries) (k : String) (v : FsNode) :
    List.lookup k (setEntry es k v) = some v := by
  induction es with
  | nil => simp [setEntry, lookup_cons_self]
  | cons hd tl ih =>
    obtain ⟨k', v'⟩ := hd
    by_cases h : k' = k
    · subst h; simp [setEntry, lookup_cons_self]
    · rw [setEntry, if_neg h, lookup_cons_ne _ _ _ _ (fun e => h e.symm), ih]

theorem lookup_setEntry_ne (es : FsEntries) (k k' : String) (v : FsNode)
    (h : k' ≠ k) : List.lookup k' (setEntry es k v) = List.lookup k' es := by
  induction es with
  | nil => simp [setEntry, lookup_cons_ne _ _ _ _ h]
  | cons hd tl ih =>
    obtain ⟨k'', v''⟩ := hd
    by_cases h2 : k'' = k
    · subst h2
      rw [setEntry, if_pos rfl, lookup_cons_ne _ _ _ _ h]
      by_cases h3 : k' = k''
      · subst h3; exact absurd rfl h
      · rw [lookup_cons_ne _ _ _ _ h3]
    · rw [setEntry, if_neg h2]
      by_cases h3 : k' = k''
      · subst h3; rw [lookup_cons_self, lookup_cons_self]
      · rw [lookup_cons_ne _ _ _ _ h3, lookup_cons_ne _ _ _ _ h3, ih]

theorem lookup_removeEntries_ne (es : FsEntries) (name k : String) (h : k ≠ name) :
    List.lookup k (removeEntries es name) = List.lookup k es := by
  induction es with
  | nil => simp [removeEntries]
  | cons hd tl ih =>
    obtain ⟨k', v'⟩ := hd
    by_cases h2 : k' = name
    · subst h2
      have hb : (!((k', v').1 == k')) = false := by simp
      simp only [removeEntries, List.filter_cons, hb, Bool.false_eq_true, if_false] at ih ⊢
      rw [lookup_cons_ne _ _ _ _ h]
      exact ih
    · have hb : (!((k', v').1 == name)) = true := by
        simp only [Bool.not_eq_true']
        exact beq_eq_false_iff_ne.mpr h2
      simp only [removeEntries, List.filter_cons, hb, if_true] at ih ⊢
      by_cases h3 : k = k'
      · subst h3; rw [lookup_cons_self, lookup_cons_self]
      · rw [lookup_cons_ne _ _ _ _ h3, lookup_cons_ne _ _ _ _ h3, ih]

theorem lookup_filter_key (es : FsEntries) (k : String) (p : String → Bool)
    (hk : p k = true) :
    List.lookup k (es.filter fun e => p e.1) = List.lookup k es := by
  induction es with
  | nil => simp
  | cons hd tl ih =>
    obtain ⟨k', v'⟩ := hd
    by_cases h : k = k'
    · subst h
      simp only [List.filter_cons, hk, if_pos]
      rw [lookup_cons_self, lookup_cons_self]
    · rw [lookup_cons_ne _ _ _ _ h]
      simp only [List.filter_cons]
      by_cases h2 : p k' = true
      · simp only [h2, if_pos]
        rw [lookup_cons_ne _ _ _ _ h, ih]
      · simp only [Bool.not_eq_true] at h2
        simp only [h2, Bool.false_eq_true, if_false]
        exact ih

theorem bucket_cons_self (c : String) (items : List String) (tl : Contents) :
    bucket ((c, items) :: tl) c = items := by
  simp [bucket, lookup_cons_self]

theorem bucket_cons_ne (c c' : String) (items : List String) (tl : Contents)
    (h : c' ≠ c) : bucket ((c, items) :: tl) c' = bucket tl c' := by
  simp [bucket, lookup_cons_ne _ _ _ _ h]

theorem bucket_pushItem_self (cs : Contents) (cat item : String) :
    bucket (pushItem cs cat item) cat = bucket cs cat ++ [item] := by
  induction cs with
  | nil => simp [pushItem, bucket, lookup_cons_self]
  | cons hd tl ih =>
    obtain ⟨c, items⟩ := hd
    by_cases h : c = cat
    · subst h; rw [pushItem, if_pos rfl, bucket_cons_self, bucket_cons_self]
    · rw [pushItem, if_neg h, bucket_cons_ne _ _ _ _ (fun e => h e.symm),
        bucket_cons_ne _ _ _ _ (fun e => h e.symm), ih]

theorem bucket_pushItem_ne (cs : Contents) (cat item cat' : String) (h : cat' ≠ cat) :
    bucket (pushItem cs cat item) cat' = bucket cs cat' := by
  induction cs with
  | nil => simp [pushItem, bucket, lookup_cons_ne _ _ _ _ h]
  | cons hd tl ih =>
    obtain ⟨c, items⟩ := hd
    by_cases h2 : c = cat
    · subst h2
      rw [pushItem, if_pos rfl, bucket_cons_ne _ _ _ _ h, bucket_cons_ne _ _ _ _ h]
    · rw [pushItem, if_neg h2]
      by_cases h3 : cat' = c
      · subst h3; rw [bucket_cons_self, bucket_cons_self]
      · rw [bucket_cons_ne _ _ _ _ h3, bucket_cons_ne _ _ _ _ h3, ih]

theorem bucket_pushItemDedup_self (cs : Contents) (cat item : String) :
    bucket (pushItemDedup cs cat item) cat =
      (if (bucket cs cat).contains item then bucket cs cat
       else bucket cs cat ++ [item]) := by
  induction cs with
  | nil => simp [pushItemDedup, bucket, lookup_cons_self]
  | cons hd tl ih =>
    obtain ⟨c, items⟩ := hd
    by_cases h : c = cat
    · subst h
      rw [pushItemDedup, if_pos rfl, bucket_cons_self, bucket_cons_self]
    · rw [pushItemDedup, if_neg h, bucket_cons_ne _ _ _ _ (fun e => h e.symm),
        bucket_cons_ne _ _ _ _ (fun e => h e.symm), ih]

theorem bucket_pushItemDedup_ne (cs : Contents) (cat item cat' : String) (h : cat' ≠ cat) :
    bucket (pushItemDedup cs cat item) cat' = bucket cs cat' := by
  induction cs with
  | nil => simp [pushItemDedup, bucket, lookup_cons_ne _ _ _ _ h]
  | cons hd tl ih =>
    obtain ⟨c, items⟩ := hd
    by_cases h2 : c = cat
    · subst h2
      rw [pushItemDedup, if_pos rfl, bucket_cons_ne _ _ _ _ h, bucket_cons_ne _ _ _ _ h]
    · rw [pushItemDedup, if_neg h2]
      by_cases h3 : cat' = c
      · subst h3; rw [bucket_cons_self, bucket_cons_self]
      · rw [bucket_cons_ne _ _ _ _ h3, bucket_cons_ne _ _ _ _ h3, ih]

theorem deriveContents_snoc (fs : List (List String)) (p : List String) :
    deriveContents (fs ++ [p]) = deriveStep (deriveContents fs) p := by
  simp [deriveContents, List.foldl_append]

theorem pushItem_nonempty (cs : Contents) (cat item : String)
    (h : ∀ kv ∈ cs, kv.2 ≠ []) : ∀ kv ∈ pushItem cs cat item, kv.2 ≠ [] := by
  induction cs with
  | nil =>
    intro kv hkv
    rw [pushItem] at hkv
    rcases List.mem_singleton.mp hkv with rfl
    simp
  | cons hd tl ih =>
    obtain ⟨c, items⟩ := hd
    by_cases h2 : c = cat
    · subst h2
      intro kv hkv
      rw [pushItem, if_pos rfl] at hkv
      rcases List.mem_cons.mp hkv with h3 | h3
      · subst h3; simp
      · exact h kv (List.mem_cons_of_mem _ h3)
    · intro kv hkv
      rw [pushItem, if_neg h2] at hkv
      rcases List.mem_cons.mp hkv with h3 | h3
      · subst h3; exact h (c, items) (List.mem_cons_self _ _)
      · exact ih (fun kv2 hkv2 => h kv2 (List.mem_cons_of_mem _ hkv2)) kv h3

theorem pushItemDedup_nonempty (cs : Contents) (cat item : String)
    (h : ∀ kv ∈ cs, kv.2 ≠ []) : ∀ kv ∈ pushItemDedup cs cat item, kv.2 ≠ [] := by
  induction cs with
  | nil =>
    intro kv hkv
    rw [pushItemDedup] at hkv
    rcases List.mem_singleton.mp hkv with rfl
    simp
  | cons hd tl ih =>
    obtain ⟨c, items⟩ := hd
    by_cases h2 : c = cat
    · subst h2
      intro kv hkv
      rw [pushItemDedup, if_pos rfl] at hkv
      rcases List.mem_cons.mp hkv with h3 | h3
      · subst h3
        have hne : items ≠ [] := h (c, items) (List.mem_cons_self _ _)
        by_cases h4 : items.contains item
        · rw [if_pos h4]; exact hne
        · rw [if_neg h4]; simp
      · exact h kv (List.mem_cons_of_mem _ h3)
    · intro kv hkv
      rw [pushItemDedup, if_neg h2] at hkv
      rcases List.mem_cons.mp hkv with h3 | h3
      · subst h3; exact h (c, items) (List.mem_cons_self _ _)
      · exact ih (fun kv2 hkv2 => h kv2 (List.mem_cons_of_mem _ hkv2)) kv h3

theorem deriveStep_claude (cs : Contents) :
    deriveStep cs ["CLAUDE.md"] = pushItem cs "instructions" "CLAUDE.md" := rfl

theorem deriveStep_mcp (cs : Contents) :
    deriveStep cs ["mcp.json"] = pushItem cs "mcp" "mcp.json" := rfl

theorem deriveStep_nil (cs : Contents) : deriveStep cs [] = cs := rfl

theorem deriveStep_single (cs : Contents) (x : String)
    (h1 : x ≠ "CLAUDE.md") (h2 : x ≠ "mcp.json") : deriveStep cs [x] = cs := by
  simp [deriveStep, h1, h2]

theorem deriveStep_two (cs : Contents) (category item : String) (rest : List String) :
    deriveStep cs (category :: item :: rest) =
      pushItemDedup cs category (stripExt item) := by
  simp [deriveStep]

theorem deriveStep_nonempty (cs : Contents) (p : List String)
    (h : ∀ kv ∈ cs, kv.2 ≠ []) : ∀ kv ∈ deriveStep cs p, kv.2 ≠ [] := by
  match p with
  | [] => rw [deriveStep_nil]; exact h
  | [x] =>
    by_cases h1 : x = "CLAUDE.md"
    · subst h1; rw [deriveStep_claude]; exact pushItem_nonempty _ _ _ h
    · by_cases h2 : x = "mcp.json"
      · subst h2; rw [deriveStep_mcp]; exact pushItem_nonempty _ _ _ h
      · rw [deriveStep_single _ _ h1 h2]; exact h
  | category :: item :: rest =>
    rw [deriveStep_two]
    exact pushItemDedup_nonempty _ _ _ h

/-- Claim C10: in the mapping returned by `deriveContents`, every category
key present maps to a non-empty sequence of item names — a bucket exists
only when at least one file contributed an item to it — and the empty
input yields the empty mapping. -/
theorem deriveContents_buckets_nonempty :
    (∀ files : List (List String), ∀ kv ∈ deriveContents files, kv.2 ≠ []) ∧
    deriveContents [] = [] := by
  constructor
  · intro files
    have hgen : ∀ acc : Contents, (∀ kv ∈ acc, kv.2 ≠ []) →
        ∀ kv ∈ List.foldl deriveStep acc files, kv.2 ≠ [] := by
      induction files with
      | nil => intro acc hacc; simpa using hacc
      | cons p rest ih =>
        intro acc hacc
        simp only [List.foldl_cons]
        exact ih _ (deriveStep_nonempty acc p hacc)
    intro kv hkv
    exact hgen [] (by simp) kv hkv
  · rfl

theorem deriveContents_buckets_nonempty_witness :
    ("commands", ["a"]).2 ≠ [] :=
  deriveContents_buckets_nonempty.1 [["commands", "a.md"]] ("commands", ["a"]) (by decide)

/-- Claim C8 (counterexample): `deriveContents` does not deduplicate the
singleton pushes — the input repeating the path `CLAUDE.md` yields the
item `CLAUDE.md` twice inside the `instructions` bucket, while the claim
(formalized by `deriveContentsClaimed`, which deduplicates every push)
requires a single occurrence. -/
theorem deriveContents_dedup_counterexample :
    deriveContents [["CLAUDE.md"], ["CLAUDE.md"]] =
      [("instructions", ["CLAUDE.md", "CLAUDE.md"])] ∧
    deriveContentsClaimed [["CLAUDE.md"], ["CLAUDE.md"]] =
      [("instructions", ["CLAUDE.md"])] ∧
    deriveContents [["CLAUDE.md"], ["CLAUDE.md"]] ≠
      deriveContentsClaimed [["CLAUDE.md"], ["CLAUDE.md"]] := by
  refine ⟨rfl, rfl, ?_⟩
  decide

/-- Claim C8 (amended): each occurrence of a recognized singleton
top-level file appends its fixed item to its fixed bucket unconditionally
(so repeated singleton paths yield repeated entries); every other path
with at least two segments contributes its extension-stripped second
segment to the category named verbatim by its first segment, with
repeated item names within that category deduplicated, first occurrence
winning and insertion order preserved; buckets other than the addressed
one are untouched; and paths with a single unrecognized segment (or no
segments) contribute nothing. -/
theorem deriveContents_characterization :
    (∀ fs, bucket (deriveContents (fs ++ [["CLAUDE.md"]])) "instructions" =
       bucket (deriveContents fs) "instructions" ++ ["CLAUDE.md"]) ∧
    (∀ fs cat, cat ≠ "instructions" →
       bucket (deriveContents (fs ++ [["CLAUDE.md"]])) cat =
         bucket (deriveContents fs) cat) ∧
    (∀ fs, bucket (deriveContents (fs ++ [["mcp.json"]])) "mcp" =
       bucket (deriveContents fs) "mcp" ++ ["mcp.json"]) ∧
    (∀ fs cat, cat ≠ "mcp" →
       bucket (deriveContents (fs ++ [["mcp.json"]])) cat =
         bucket (deriveContents fs) cat) ∧
    (∀ fs category item rest,
       bucket (deriveContents (fs ++ [category :: item :: rest])) category =
         (if (bucket (deriveContents fs) category).contains (stripExt item) then
            bucket (deriveContents fs) category
          else bucket (deriveContents fs) category ++ [stripExt item])) ∧
    (∀ fs category item rest cat, cat ≠ category →
       bucket (deriveContents (fs ++ [category :: item :: rest])) cat =
         bucket (deriveContents fs) cat) ∧
    (∀ fs x, x ≠ "CLAUDE.md" → x ≠ "mcp.json" →
       deriveContents (fs ++ [[x]]) = deriveContents fs) ∧
    (∀ fs, deriveContents (fs ++ [([] : List String)]) = deriveContents fs) := by
  refine ⟨?_, ?_, ?_, ?_, ?_, ?_, ?_, ?_⟩
  · intro fs
    rw [deriveContents_snoc, deriveStep_claude, bucket_pushItem_self]
  · intro fs cat hcat
    rw [deriveContents_snoc, deriveStep_claude, bucket_pushItem_ne _ _ _ _ hcat]
  · intro fs
    rw [deriveContents_snoc, deriveStep_mcp, bucket_pushItem_self]
  · intro fs cat hcat
    rw [deriveContents_snoc, deriveStep_mcp, bucket_pushItem_ne _ _ _ _ hcat]
  · intro fs category item rest
    rw [deriveContents_snoc, deriveStep_two]
    exact bucket_pushItemDedup_self _ _ _
  · intro fs category item rest cat hcat
    rw [deriveContents_snoc, deriveStep_two]
    exact bucket_pushItemDedup_ne _ _ _ _ hcat
  · intro fs x hx1 hx2
    rw [deriveContents_snoc, deriveStep_single _ _ hx1 hx2]
  · intro fs
    rw [deriveContents_snoc, deriveStep_nil]

theorem deriveContents_characterization_witness :
    bucket (deriveContents [["CLAUDE.md"]]) "commands" =
      bucket (deriveContents []) "commands" :=
  deriveContents_characterization.2.1 [] "commands" (by decide)

/-! ## Publish orchestrator claims -/

/-- Claim C9: a profile whose `contents` mapping has no non-empty bucket
is rejected as having no functional content before any credential lookup,
identity verification, or publish attempt: the outcome is `noContent` and
the event trace is empty. -/
theorem publishProfile_rejects_no_content (env : PubEnv) (m : ProfileMeta)
    (hex : env.profileExists = true) (hmd : env.metadata = some m)
    (hempty : ∀ kv ∈ m.contents, kv.2 = []) :
    publishProfile env = (.noContent, []) := by
  have hc : hasContent m.contents = false := by
    rw [hasContent, List.any_eq_false]
    intro kv hkv
    simp [hempty kv hkv]
  simp [publishProfile, hex, hmd, hc]

theorem publishProfile_rejects_no_content_witness :
    publishProfile
      { profileExists := true
        metadata := some
          { name := "p", version := "1.0.0", description := "", tags := [],
            createdAt := "", claudeVersion := "", platform := "",
            includesSecrets := false, files := [],
            contents := [("commands", []), ("hooks", [])] }
        cachedToken := some "tok"
        deviceAuth := .ok "dtok"
        username := fun _ => .ok "user"
        confirm := true
        doPublish := fun _ _ => .ok "url" } = (.noContent, []) :=
  publishProfile_rejects_no_content _ _ rfl rfl (by decide)

/-- Claim C2: in one invocation, a direct-mode publish attempt rejected
for insufficient access (an error message containing `403`) triggers
interactive authentication and exactly one fork-mode retry; a rejected
retry, or a rejection of an attempt that was already fork-mode, is fatal,
and no invocation ever performs more than two publish attempts. -/
theorem attemptPublish_single_retry :
    (∀ (env : PubEnv) (token : String) (useFork : Bool),
       ((attemptPublish env token useFork).2.countP isPublishAttempt) ≤ 2) ∧
    (∀ (env : PubEnv) (token msg dtok : String),
       env.doPublish token false = .error msg → strIncludes msg "403" = true →
       env.deviceAuth = .ok dtok →
       (attemptPublish env token false).2 =
         [.publishAttempt false, .deviceFlowAuth, .publishAttempt true] ∧
       (∀ retryMsg, env.doPublish dtok true = .error retryMsg →
         (attemptPublish env token false).1 = .fatal retryMsg)) ∧
    (∀ (env : PubEnv) (token msg : String),
       env.doPublish token true = .error msg →
       attemptPublish env token true = (.fatal msg, [.publishAttempt true])) ∧
    (∀ env : PubEnv, ((publishProfile env).2.countP isPublishAttempt) ≤ 2) := by
  have hcount : ∀ (env : PubEnv) (token : String) (useFork : Bool),
      ((attemptPublish env token useFork).2.countP isPublishAttempt) ≤ 2 := by
    intro env token useFork
    rcases h1 : env.doPublish token useFork with msg | url
    · by_cases hif : (strIncludes msg "403" && !useFork) = true
      · rcases h2 : env.deviceAuth with e | dtok
        · simp [attemptPublish, h1, hif, h2, List.countP_cons, List.countP_nil,
            isPublishAttempt]
        · rcases h3 : env.doPublish dtok true with msg2 | url2 <;>
            simp [attemptPublish, h1, hif, h2, h3, List.countP_cons, List.countP_nil,
              isPublishAttempt]
      · simp [attemptPublish, h1, hif, List.countP_cons, List.countP_nil,
          isPublishAttempt]
    · simp [attemptPublish, h1, List.countP_cons, List.countP_nil, isPublishAttempt]
  refine ⟨hcount, ?_, ?_, ?_⟩
  · intro env token msg dtok h1 h403 hda
    constructor
    · rcases h3 : env.doPublish dtok true with msg2 | url2 <;>
        simp [attemptPublish, h1, h403, hda, h3]
    · intro retryMsg h4
      simp [attemptPublish, h1, h403, hda, h4]
  · intro env token msg h1
    simp [attemptPublish, h1]
  · intro env
    rcases hex : env.profileExists with _ | _
    · simp [publishProfile, hex, List.countP_nil]
    · rcases hmd : env.metadata with _ | m
      · simp [publishProfile, hex, hmd, List.countP_nil]
      · rcases hc : hasContent m.contents with _ | _
        · simp [publishProfile, hex, hmd, hc, List.countP_nil]
        · have hwt : ∀ (token : String) (useFork : Bool) (pre : List PubEvent),
              List.countP isPublishAttempt pre = 0 →
              ((publishWithToken env token useFork pre).2.countP isPublishAttempt) ≤ 2 := by
            intro token useFork pre hpre
            rcases hu : env.username token with e | a
            · simp [publishWithToken, hu, List.countP_append, hpre, List.countP_cons,
                List.countP_nil, isPublishAttempt]
            · rcases hcf : env.confirm with _ | _
              · simp [publishWithToken, hu, hcf, List.countP_append, hpre,
                  List.countP_cons, List.countP_nil, isPublishAttempt]
              · rcases hap : attemptPublish env token useFork with ⟨r, evs⟩
                have hb := hcount env token useFork
                rw [hap] at hb
                simp only at hb
                simp [publishWithToken, hu, hcf, hap, List.countP_append, hpre,
                  List.countP_cons, List.countP_nil, isPublishAttempt]
                omega
          rcases hct : env.cachedToken with _ | token
          · rcases hda : env.deviceAuth with e | dtok
            · simp [publishProfile, hex, hmd, hc, hct, hda, List.countP_cons,
                List.countP_nil, isPublishAttempt]
            · have hw := hwt dtok true [.credentialLookup, .deviceFlowAuth]
                (by simp [List.countP_cons, List.countP_nil, isPublishAttempt])
              simpa [publishProfile, hex, hmd, hc, hct, hda] using hw
          · have hw := hwt token false [.credentialLookup]
              (by simp [List.countP_cons, List.countP_nil, isPublishAttempt])
            simpa [publishProfile, hex, hmd, hc, hct] using hw

theorem attemptPublish_single_retry_witness :
    ((attemptPublish
        { profileExists := true, metadata := none, cachedToken := some "t",
          deviceAuth := .ok "dtok", username := fun _ => .ok "u", confirm := true,
          doPublish := fun tok _ =>
            if tok = "dtok" then .error "403 again" else .error "HTTP 403" }
        "t" false).2 =
      [.publishAttempt false, .deviceFlowAuth, .publishAttempt true]) ∧
    ((attemptPublish
        { profileExists := true, metadata := none, cachedToken := some "t",
          deviceAuth := .ok "dtok", username := fun _ => .ok "u", confirm := true,
          doPublish := fun tok _ =>
            if tok = "dtok" then .error "403 again" else .error "HTTP 403" }
        "t" false).1 = .fatal "403 again") :=
  have h := attemptPublish_single_retry.2.1
    { profileExists := true, metadata := none, cachedToken := some "t",
      deviceAuth := .ok "dtok", username := fun _ => .ok "u", confirm := true,
      doPublish := fun tok _ =>
        if tok = "dtok" then .error "403 again" else .error "HTTP 403" }
    "t" "HTTP 403" "dtok" rfl (by decide) rfl
  ⟨h.1, h.2 "403 again" rfl⟩

/-! ## Snapshot writer claims -/

/-- Claim C3: when the source configuration directory exists and the
destination profile directory also already exists, `createSnapshot` fails
with the `AlreadyExists` error and returns the filesystem state unchanged
— no file is written or modified anywhere.  The throw happens before
`mkdirSync` and before any copy. -/
theorem createSnapshot_existing_destination (env : SnapEnv)
    (profileName description : String) (tags : List String)
    (includeSecrets : Bool) (cd pd : FsNode) :
    createSnapshot env profileName description tags includeSecrets
        { claudeDir := some cd, profileDir := some pd } =
      ({ claudeDir := some cd, profileDir := some pd },
       .error (strAppend (strAppend "Profile \"" profileName)
         "\" already exists. Use a different name or delete the existing one.")) := rfl

/-! ## Snapshot restorer claims: cleanup and backup -/

theorem lookup_foldl_removeEntries (ds : List String) (es : FsEntries) (k : String)
    (h : k ∉ ds) : List.lookup k (ds.foldl removeEntries es) = List.lookup k es := by
  induction ds generalizing es with
  | nil => rfl
  | cons d rest ih =>
    rw [List.foldl_cons]
    have hk : k ≠ d := fun e => h (e ▸ List.mem_cons_self d rest)
    rw [ih _ (fun hm => h (List.mem_cons_of_mem _ hm)), lookup_removeEntries_ne _ _ _ hk]

theorem rmContentFiles_lookup_ne (names : List String) :
    ∀ (es out : FsEntries) (k : String),
    rmContentFiles names es = (out, none) → k ∉ names →
    List.lookup k out = List.lookup k es := by
  induction names with
  | nil =>
    intro es out k hrun _
    rw [rmContentFiles] at hrun
    cases hrun
    rfl
  | cons f rest ih =>
    intro es out k hrun hk
    have hkf : k ≠ f := fun e => hk (e ▸ List.mem_cons_self f rest)
    have hkr : k ∉ rest := fun hm => hk (List.mem_cons_of_mem _ hm)
    rw [rmContentFiles] at hrun
    rcases hlf : List.lookup f es with _ | node
    · rw [hlf] at hrun
      exact ih es out k hrun hkr
    · rcases node with c | fes
      · rw [hlf] at hrun
        rw [ih _ _ _ hrun hkr, lookup_removeEntries_ne _ _ _ hkf]
      · rw [hlf] at hrun
        simp at hrun

/-- Claim C6: for every state of the `plugins` content directory, cleanup
deletes exactly the entries whose name is not on the preserve list
`PLUGIN_INFRA_DIRS`, and every preserve-listed entry survives with its
subtree unchanged. -/
theorem cleanProfileContent_preserves_plugin_infra (es pes out : FsEntries)
    (hpl : List.lookup "plugins" es = some (.dir pes))
    (hok : cleanProfileContent es = (out, none)) :
    List.lookup "plugins" out =
      some (.dir (pes.filter fun e => PLUGIN_INFRA_DIRS.contains e.1)) ∧
    (∀ d node, d ∈ PLUGIN_INFRA_DIRS → List.lookup d pes = some node →
      List.lookup d (pes.filter fun e => PLUGIN_INFRA_DIRS.contains e.1) = some node) := by
  have h1 : List.lookup "plugins" (rmContentDirs es) = some (.dir pes) := by
    rw [rmContentDirs, lookup_foldl_removeEntries _ _ _ (by decide), hpl]
  rw [cleanProfileContent] at hok
  simp only [h1] at hok
  constructor
  · have h2 := rmContentFiles_lookup_ne contentFiles _ out "plugins" hok (by decide)
    rw [h2, lookup_setEntry_self]
  · intro d node hd hlk
    have hc : PLUGIN_INFRA_DIRS.contains d = true := by
      exact List.elem_iff.mpr hd
    rw [lookup_filter_key _ _ _ hc, hlk]

theorem cleanProfileContent_preserves_plugin_infra_witness :
    List.lookup "plugins" ((cleanProfileContent
        [("plugins", FsNode.dir [("cache", FsNode.file [1]), ("mine", FsNode.file [2])]),
         ("settings.json", FsNode.file [7])]).1) =
      some (.dir ([("cache", FsNode.file [1]), ("mine", FsNode.file [2])].filter
        fun e => PLUGIN_INFRA_DIRS.contains e.1)) :=
  (cleanProfileContent_preserves_plugin_infra
    [("plugins", FsNode.dir [("cache", FsNode.file [1]), ("mine", FsNode.file [2])]),
     ("settings.json", FsNode.file [7])]
    [("cache", FsNode.file [1]), ("mine", FsNode.file [2])]
    _ rfl rfl).1

/-- Claim C7: when a backup is requested and the target directory exists,
`extractSnapshot` copies the entire target tree to the backup location
before any destructive step — the recorded backup is the original target
tree, whatever happens later — and a failing backup copy aborts the
restore with the target state unchanged. -/
theorem extractSnapshot_backup_before_destruction (profileEntries : FsEntries)
    (t : FsNode) (b0 : Option FsNode)
    (hvalid : (List.lookup "profile.json" profileEntries).isSome = true) :
    (extractSnapshot (some (.dir profileEntries)) true false
        { target := some t, backup := b0 } =
      ({ target := some t, backup := b0 }, .error "backup copy failed")) ∧
    ((extractSnapshot (some (.dir profileEntries)) true true
        { target := some t, backup := b0 }).1.backup = some t) := by
  constructor
  · simp [extractSnapshot, hvalid]
  · simp only [extractSnapshot, hvalid, if_true, Option.isSome_some, Bool.and_self]
    rcases t with c | tes
    · simp [extractAfterBackup]
    · simp only [extractAfterBackup]
      rcases h1 : cleanProfileContent tes with ⟨cl, err⟩
      rcases err with _ | e
      · rcases h2 : copyProfileFiles profileEntries cl with ⟨mg, err2⟩
        rcases err2 with _ | e2 <;> simp [extractInstall, h1, h2]
      · simp [extractInstall, h1]

theorem extractSnapshot_backup_before_destruction_witness :
    (extractSnapshot (some (.dir [("profile.json", FsNode.file [])])) true false
        { target := some (.dir [("CLAUDE.md", FsNode.file [3])]), backup := none } =
      ({ target := some (.dir [("CLAUDE.md", FsNode.file [3])]), backup := none },
       .error "backup copy failed")) ∧
    ((extractSnapshot (some (.dir [("profile.json", FsNode.file [])])) true true
        { target := some (.dir [("CLAUDE.md", FsNode.file [3])]), backup := none }).1.backup =
      some (.dir [("CLAUDE.md", FsNode.file [3])])) :=
  extractSnapshot_backup_before_destruction _ _ _ rfl

/-! ## Walk claims: allowlist soundness and pruning -/

theorem allPrefixesPass_nil (ex : List String) : allPrefixesPass ex [] := by
  intro q n r h
  exact absurd h (by simp)

theorem allPrefixesPass_extend (ex : List String) (rel : List String) (name : String)
    (hrel : allPrefixesPass ex rel)
    (hpass : passesFilters ex name (rel ++ [name]) = true) :
    allPrefixesPass ex (rel ++ [name]) := by
  intro q n r heq
  rcases List.eq_nil_or_concat r with hr | ⟨r', a, rfl⟩
  · subst hr
    obtain ⟨h1, h2⟩ := List.append_inj' heq rfl
    have hn : name = n := by simpa using h2
    subst hn
    subst h1
    exact hpass
  · have heq2 : rel ++ [name] = (q ++ n :: r') ++ [a] := by
      simpa [List.append_assoc] using heq
    obtain ⟨h1, h2⟩ := List.append_inj' heq2 rfl
    exact hrel q n r' h1

theorem walkFiles_cons (ex : List String) (name : String) (node : FsNode)
    (rest : FsEntries) (rel : List String) :
    walkFiles ex ((name, node) :: rest) rel =
      (if !isAllowed name (rel ++ [name]) then walkFiles ex rest rel
       else if shouldExclude name (rel ++ [name]) ex then walkFiles ex rest rel
       else match node with
         | .dir es => walkFiles ex es (rel ++ [name]) ++ walkFiles ex rest rel
         | .file _ => (rel ++ [name]) :: walkFiles ex rest rel) := by
  rw [walkFiles.eq_def]

theorem walkVisited_cons (ex : List String) (name : String) (node : FsNode)
    (rest : FsEntries) (rel : List String) :
    walkVisited ex ((name, node) :: rest) rel =
      (if !isAllowed name (rel ++ [name]) then walkVisited ex rest rel
       else if shouldExclude name (rel ++ [name]) ex then walkVisited ex rest rel
       else match node with
         | .dir es =>
           (rel ++ [name]) :: (walkVisited ex es (rel ++ [name]) ++ walkVisited ex rest rel)
         | .file _ => (rel ++ [name]) :: walkVisited ex rest rel) := by
  rw [walkVisited.eq_def]

theorem allowOnlyWalk_cons (name : String) (node : FsNode)
    (rest : FsEntries) (rel : List String) :
    allowOnlyWalk ((name, node) :: rest) rel =
      (if !isAllowed name (rel ++ [name]) then allowOnlyWalk rest rel
       else match node with
         | .dir es => allowOnlyWalk es (rel ++ [name]) ++ allowOnlyWalk rest rel
         | .file _ => (rel ++ [name]) :: allowOnlyWalk rest rel) := by
  rw [allowOnlyWalk.eq_def]

theorem walkFiles_good (ex : List String) : ∀ (es : FsEntries) (rel : List String),
    allPrefixesPass ex rel →
    ∀ p ∈ walkFiles ex es rel, allPrefixesPass ex p ∧ ∃ q n, p = q ++ [n] := by
  intro es rel
  induction es, rel using walkFiles.induct ex with
  | case1 rel =>
    intro _ p hp
    rw [walkFiles.eq_def] at hp
    exact absurd hp (List.not_mem_nil p)
  | case2 name node rest rel relPath h ih =>
    intro hrel p hp
    have h' : (!isAllowed name (rel ++ [name])) = true := h
    rw [walkFiles_cons, if_pos h'] at hp
    exact ih hrel p hp
  | case3 name node rest rel relPath hna hex ih =>
    intro hrel p hp
    have hna' : ¬(!isAllowed name (rel ++ [name])) = true := hna
    have hex' : shouldExclude name (rel ++ [name]) ex = true := hex
    rw [walkFiles_cons, if_neg hna', if_pos hex'] at hp
    exact ih hrel p hp
  | case4 name rest rel relPath hna hex es ihEs ihRest =>
    intro hrel p hp
    have hna' : ¬(!isAllowed name (rel ++ [name])) = true := hna
    have hex' : ¬shouldExclude name (rel ++ [name]) ex = true := hex
    rw [walkFiles_cons, if_neg hna', if_neg hex'] at hp
    have hp2 : p ∈ walkFiles ex es (rel ++ [name]) ++ walkFiles ex rest rel := hp
    have hA : isAllowed name (rel ++ [name]) = true := by
      rcases hb : isAllowed name (rel ++ [name]) with _ | _
      · exact absurd (by simp [hb]) hna'
      · rfl
    have hE : shouldExclude name (rel ++ [name]) ex = false := by
      rcases hb : shouldExclude name (rel ++ [name]) ex with _ | _
      · rfl
      · exact absurd hb hex'
    have hpass : passesFilters ex name (rel ++ [name]) = true := by
      rw [passesFilters, hA, hE]
      rfl
    rcases List.mem_append.mp hp2 with hp3 | hp3
    · exact ihEs (allPrefixesPass_extend ex rel name hrel hpass) p hp3
    · exact ihRest hrel p hp3
  | case5 name rest rel relPath hna hex content ih =>
    intro hrel p hp
    have hna' : ¬(!isAllowed name (rel ++ [name])) = true := hna
    have hex' : ¬shouldExclude name (rel ++ [name]) ex = true := hex
    rw [walkFiles_cons, if_neg hna', if_neg hex'] at hp
    have hp2 : p ∈ (rel ++ [name]) :: walkFiles ex rest rel := hp
    have hA : isAllowed name (rel ++ [name]) = true := by
      rcases hb : isAllowed name (rel ++ [name]) with _ | _
      · exact absurd (by simp [hb]) hna'
      · rfl
    have hE : shouldExclude name (rel ++ [name]) ex = false := by
      rcases hb : shouldExclude name (rel ++ [name]) ex with _ | _
      · rfl
      · exact absurd hb hex'
    have hpass : passesFilters ex name (rel ++ [name]) = true := by
      rw [passesFilters, hA, hE]
      rfl
    rcases List.mem_cons.mp hp2 with rfl | hp3
    · exact ⟨allPrefixesPass_extend ex rel name hrel hpass, rel, name, rfl⟩
    · exact ih hrel p hp3

theorem walkVisited_good (ex : List String) : ∀ (es : FsEntries) (rel : List String),
    allPrefixesPass ex rel →
    ∀ p ∈ walkVisited ex es rel, allPrefixesPass ex p := by
  intro es rel
  induction es, rel using walkVisited.induct ex with
  | case1 rel =>
    intro _ p hp
    rw [walkVisited.eq_def] at hp
    exact absurd hp (List.not_mem_nil p)
  | case2 name node rest rel relPath h ih =>
    intro hrel p hp
    have h' : (!isAllowed name (rel ++ [name])) = true := h
    rw [walkVisited_cons, if_pos h'] at hp
    exact ih hrel p hp
  | case3 name node rest rel relPath hna hex ih =>
    intro hrel p hp
    have hna' : ¬(!isAllowed name (rel ++ [name])) = true := hna
    have hex' : shouldExclude name (rel ++ [name]) ex = true := hex
    rw [walkVisited_cons, if_neg hna', if_pos hex'] at hp
    exact ih hrel p hp
  | case4 name rest rel relPath hna hex es ihEs ihRest =>
    intro hrel p hp
    have hna' : ¬(!isAllowed name (rel ++ [name])) = true := hna
    have hex' : ¬shouldExclude name (rel ++ [name]) ex = true := hex
    rw [walkVisited_cons, if_neg hna', if_neg hex'] at hp
    have hp2 : p ∈ (rel ++ [name]) ::
        (walkVisited ex es (rel ++ [name]) ++ walkVisited ex rest rel) := hp
    have hA : isAllowed name (rel ++ [name]) = true := by
      rcases hb : isAllowed name (rel ++ [name]) with _ | _
      · exact absurd (by simp [hb]) hna'
      · rfl
    have hE : shouldExclude name (rel ++ [name]) ex = false := by
      rcases hb : shouldExclude name (rel ++ [name]) ex with _ | _
      · rfl
      · exact absurd hb hex'
    have hpass : passesFilters ex name (rel ++ [name]) = true := by
      rw [passesFilters, hA, hE]
      rfl
    rcases List.mem_cons.mp hp2 with rfl | hp3
    · exact allPrefixesPass_extend ex rel name hrel hpass
    · rcases List.mem_append.mp hp3 with hp4 | hp4
      · exact ihEs (allPrefixesPass_extend ex rel name hrel hpass) p hp4
      · exact ihRest hrel p hp4
  | case5 name rest rel relPath hna hex content ih =>
    intro hrel p hp
    have hna' : ¬(!isAllowed name (rel ++ [name])) = true := hna
    have hex' : ¬shouldExclude name (rel ++ [name]) ex = true := hex
    rw [walkVisited_cons, if_neg hna', if_neg hex'] at hp
    have hp2 : p ∈ (rel ++ [name]) :: walkVisited ex rest rel := hp
    have hpass : passesFilters ex name (rel ++ [name]) = true := by
      have hA : isAllowed name (rel ++ [name]) = true := by
        rcases hb : isAllowed name (rel ++ [name]) with _ | _
        · exact absurd (by simp [hb]) hna'
        · rfl
      have hE : shouldExclude name (rel ++ [name]) ex = false := by
        rcases hb : shouldExclude name (rel ++ [name]) ex with _ | _
        · rfl
        · exact absurd hb hex'
      rw [passesFilters, hA, hE]
      rfl
    rcases List.mem_cons.mp hp2 with rfl | hp3
    · exact allPrefixesPass_extend ex rel name hrel hpass
    · exact ih hrel p hp3

theorem walkFiles_nil (ex : List String) (rel : List String) :
    walkFiles ex [] rel = [] := by
  rw [walkFiles.eq_def]

theorem walkVisited_nil (ex : List String) (rel : List String) :
    walkVisited ex [] rel = [] := by
  rw [walkVisited.eq_def]

theorem allowOnlyWalk_nil (rel : List String) : allowOnlyWalk [] rel = [] := by
  rw [allowOnlyWalk.eq_def]

theorem walkFiles_no_excludes : ∀ (es : FsEntries) (rel : List String),
    walkFiles [] es rel = allowOnlyWalk es rel := by
  intro es rel
  induction es, rel using walkFiles.induct [] with
  | case1 rel => rw [walkFiles_nil, allowOnlyWalk_nil]
  | case2 name node rest rel relPath h ih =>
    have h' : (!isAllowed name (rel ++ [name])) = true := h
    rw [walkFiles_cons, allowOnlyWalk_cons, if_pos h', if_pos h', ih]
  | case3 name node rest rel relPath hna hex ih =>
    have hex' : shouldExclude name (rel ++ [name]) [] = true := hex
    simp [shouldExclude] at hex'
  | case4 name rest rel relPath hna hex es ihEs ihRest =>
    have hna' : ¬(!isAllowed name (rel ++ [name])) = true := hna
    have hex' : ¬shouldExclude name (rel ++ [name]) [] = true := hex
    rw [walkFiles_cons, allowOnlyWalk_cons, if_neg hna', if_neg hna', if_neg hex']
    show walkFiles [] es (rel ++ [name]) ++ walkFiles [] rest rel =
      allowOnlyWalk es (rel ++ [name]) ++ allowOnlyWalk rest rel
    have ihEs' : walkFiles [] es (rel ++ [name]) = allowOnlyWalk es (rel ++ [name]) := ihEs
    rw [ihEs', ihRest]
  | case5 name rest rel relPath hna hex content ih =>
    have hna' : ¬(!isAllowed name (rel ++ [name])) = true := hna
    have hex' : ¬shouldExclude name (rel ++ [name]) [] = true := hex
    rw [walkFiles_cons, allowOnlyWalk_cons, if_neg hna', if_neg hna', if_neg hex']
    show (rel ++ [name]) :: walkFiles [] rest rel =
      (rel ++ [name]) :: allowOnlyWalk rest rel
    rw [ih]

/-- Claim C4: every path returned by `getFilesToArchive` is a file entry
that matches the allowlist and no rule of the active deny list, and every
entry the walk visits — hence a fortiori every entry it returns — lies on
a chain of entries that all passed both filters: an entry of a disallowed
or denied subtree is never visited, because pruning happens before
descent. -/
theorem getFilesToArchive_allowlist_sound (dir : FsEntries) (includeSecrets : Bool) :
    (∀ p ∈ getFilesToArchive dir includeSecrets, ∃ q n, p = q ++ [n] ∧
       isAllowed n p = true ∧
       shouldExclude n p (if includeSecrets then [] else DEFAULT_EXCLUDES) = false) ∧
    (∀ p ∈ walkVisited (if includeSecrets then [] else DEFAULT_EXCLUDES) dir [],
       ∀ q n r, p = q ++ n :: r →
         isAllowed n (q ++ [n]) = true ∧
         shouldExclude n (q ++ [n]) (if includeSecrets then [] else DEFAULT_EXCLUDES) = false) := by
  constructor
  · intro p hp
    rw [getFilesToArchive] at hp
    obtain ⟨hgood, q, n, rfl⟩ :=
      walkFiles_good (if includeSecrets then [] else DEFAULT_EXCLUDES) dir []
        (allPrefixesPass_nil _) _ hp
    have hpf := hgood q n [] rfl
    rw [passesFilters, Bool.and_eq_true] at hpf
    exact ⟨q, n, rfl, hpf.1, by simpa using hpf.2⟩
  · intro p hp q n r heq
    have hpf := walkVisited_good (if includeSecrets then [] else DEFAULT_EXCLUDES) dir []
      (allPrefixesPass_nil _) p hp q n r heq
    rw [passesFilters, Bool.and_eq_true] at hpf
    exact ⟨hpf.1, by simpa using hpf.2⟩

theorem getFilesToArchive_allowlist_sound_witness :
    (∃ q n, ["commands", "a.md"] = q ++ [n] ∧
       isAllowed n ["commands", "a.md"] = true ∧
       shouldExclude n ["commands", "a.md"] (if false then [] else DEFAULT_EXCLUDES) = false) :=
  (getFilesToArchive_allowlist_sound
      [("commands", FsNode.dir [("a.md", FsNode.file [1])]),
       (".credentials", FsNode.file [2])] false).1
    ["commands", "a.md"] (by
      have f1 : isAllowed "commands" ["commands"] = true := by decide
      have f2 : shouldExclude "commands" ["commands"] DEFAULT_EXCLUDES = false := by decide
      have f3 : isAllowed "a.md" ["commands", "a.md"] = true := by decide
      have f4 : shouldExclude "a.md" ["commands", "a.md"] DEFAULT_EXCLUDES = false := by decide
      have f5 : isAllowed ".credentials" [".credentials"] = false := by decide
      simp [getFilesToArchive, walkFiles_cons, walkFiles_nil, f1, f2, f3, f4, f5])

theorem shouldExclude_false_name_facts (n : String) (p : List String)
    (h : shouldExclude n p DEFAULT_EXCLUDES = false) :
    n ≠ ".credentials" ∧ n ≠ ".auth" ∧ strEndsWith n ".key" = false ∧
    strEndsWith n ".pem" = false ∧ strEndsWith n ".secret" = false ∧
    strStartsWith n "oauth_token" = false := by
  simp only [shouldExclude, List.any_eq_false] at h
  refine ⟨?_, ?_, ?_, ?_, ?_, ?_⟩
  · intro hcontra
    subst hcontra
    have h1 := h ".credentials" (by decide)
    exact h1 (by simp [show strStartsWith ".credentials" "*." = false from by decide])
  · intro hcontra
    subst hcontra
    have h1 := h ".auth" (by decide)
    exact h1 (by simp [show strStartsWith ".auth" "*." = false from by decide])
  · have h1 := h "*.key" (by decide)
    simpa [show strStartsWith "*.key" "*." = true from by decide,
      show strDrop "*.key" 1 = ".key" from by decide] using h1
  · have h1 := h "*.pem" (by decide)
    simpa [show strStartsWith "*.pem" "*." = true from by decide,
      show strDrop "*.pem" 1 = ".pem" from by decide] using h1
  · have h1 := h "*.secret" (by decide)
    simpa [show strStartsWith "*.secret" "*." = true from by decide,
      show strDrop "*.secret" 1 = ".secret" from by decide] using h1
  · have h1 := h "oauth_token*" (by decide)
    have e1 : strStartsWith "oauth_token*" "*." = false := by decide
    have e2 : strEndsWith "oauth_token*" "*" = true := by decide
    have e3 : strDropRight "oauth_token*" 1 = "oauth_token" := by decide
    simp only [e1, Bool.false_eq_true, if_false, e2, e3, Bool.true_and] at h1
    by_cases hcase : (n == "oauth_token*" || joinPath p == "oauth_token*") = true
    · exact absurd (by simp [hcase]) h1
    · simp only [Bool.not_eq_true] at hcase
      simp only [hcase, Bool.false_eq_true, if_false] at h1
      simpa using h1

/-- Claim C5: with `includeSecrets` false, no returned path has an entry
name matching a credential-like deny pattern, and no returned path lies
inside a plugin infrastructure subdirectory; with `includeSecrets` true
the deny list is empty and the walk returns exactly the allowlist-filtered
files. -/
theorem getFilesToArchive_secrets_policy (dir : FsEntries) :
    (∀ p ∈ getFilesToArchive dir false, ∃ q n, p = q ++ [n] ∧
       n ≠ ".credentials" ∧ n ≠ ".auth" ∧ strEndsWith n ".key" = false ∧
       strEndsWith n ".pem" = false ∧ strEndsWith n ".secret" = false ∧
       strStartsWith n "oauth_token" = false) ∧
    (∀ p ∈ getFilesToArchive dir false, ∀ d ∈ PLUGIN_INFRA_DIRS,
       ¬ ["plugins", d] <+: p) ∧
    getFilesToArchive dir true = allowOnlyWalk dir [] := by
  refine ⟨?_, ?_, ?_⟩
  · intro p hp
    rw [getFilesToArchive] at hp
    have hp2 : p ∈ walkFiles DEFAULT_EXCLUDES dir [] := hp
    obtain ⟨hgood, q, n, rfl⟩ :=
      walkFiles_good DEFAULT_EXCLUDES dir [] (allPrefixesPass_nil _) _ hp2
    have hpf := hgood q n [] rfl
    rw [passesFilters, Bool.and_eq_true] at hpf
    have hse : shouldExclude n (q ++ [n]) DEFAULT_EXCLUDES = false := by
      simpa using hpf.2
    obtain ⟨a1, a2, a3, a4, a5, a6⟩ := shouldExclude_false_name_facts n (q ++ [n]) hse
    exact ⟨q, n, rfl, a1, a2, a3, a4, a5, a6⟩
  · intro p hp d hd hpref
    rw [getFilesToArchive] at hp
    have hp2 : p ∈ walkFiles DEFAULT_EXCLUDES dir [] := hp
    obtain ⟨r, hr⟩ := hpref
    subst hr
    have hgood :=
      (walkFiles_good DEFAULT_EXCLUDES dir [] (allPrefixesPass_nil _) _ hp2).1
    have hsplit := hgood ["plugins"] d r rfl
    rw [passesFilters, Bool.and_eq_true] at hsplit
    have hse : shouldExclude d (["plugins"] ++ [d]) DEFAULT_EXCLUDES = false := by
      simpa using hsplit.2
    simp only [PLUGIN_INFRA_DIRS, List.mem_cons, List.not_mem_nil, or_false] at hd
    rcases hd with rfl | rfl | rfl | rfl | rfl <;> revert hse <;> decide
  · rw [getFilesToArchive]
    show walkFiles [] dir [] = allowOnlyWalk dir []
    exact walkFiles_no_excludes dir []

theorem getFilesToArchive_secrets_policy_witness :
    (∃ q n, ["commands", "a.md"] = q ++ [n] ∧
       n ≠ ".credentials" ∧ n ≠ ".auth" ∧ strEndsWith n ".key" = false ∧
       strEndsWith n ".pem" = false ∧ strEndsWith n ".secret" = false ∧
       strStartsWith n "oauth_token" = false) :=
  (getFilesToArchive_secrets_policy
      [("commands", FsNode.dir [("a.md", FsNode.file [1])]),
       (".credentials", FsNode.file [2])]).1
    ["commands", "a.md"] (by
      have f1 : isAllowed "commands" ["commands"] = true := by decide
      have f2 : shouldExclude "commands" ["commands"] DEFAULT_EXCLUDES = false := by decide
      have f3 : isAllowed "a.md" ["commands", "a.md"] = true := by decide
      have f4 : shouldExclude "a.md" ["commands", "a.md"] DEFAULT_EXCLUDES = false := by decide
      have f5 : isAllowed ".credentials" [".credentials"] = false := by decide
      simp [getFilesToArchive, walkFiles_cons, walkFiles_nil, f1, f2, f3, f4, f5])

/-! ## Restore frame lemmas (claim C1) -/

theorem wfEntries_cons (name : String) (node : FsNode) (rest : FsEntries) :
    wfEntries ((name, node) :: rest) =
      (!(rest.any fun e => e.1 == name) &&
       (match node with
        | .file _ => true
        | .dir es => wfEntries es) &&
       wfEntries rest) := by
  rw [wfEntries.eq_def]

theorem wfEntries_nil : wfEntries [] = true := by
  rw [wfEntries.eq_def]

theorem lookup_of_any_false {β : Type} (rest : List (String × β)) (name : String)
    (h : (rest.any fun e => e.1 == name) = false) : List.lookup name rest = none := by
  induction rest with
  | nil => rfl
  | cons hd tl ih =>
    obtain ⟨k, v⟩ := hd
    simp only [List.any_cons, Bool.or_eq_false_iff] at h
    have hk : name ≠ k := by
      intro e
      subst e
      simp at h
    rw [lookup_cons_ne _ _ _ _ hk]
    exact ih h.2

theorem wfEntries_parts (name : String) (node : FsNode) (rest : FsEntries)
    (h : wfEntries ((name, node) :: rest) = true) :
    List.lookup name rest = none ∧
    (∀ es, node = .dir es → wfEntries es = true) ∧
    wfEntries rest = true := by
  rw [wfEntries_cons] at h
  simp only [Bool.and_eq_true, Bool.not_eq_true'] at h
  refine ⟨lookup_of_any_false rest name h.1.1, ?_, h.2⟩
  intro es he
  subst he
  exact h.1.2

theorem lookupPath_head_none (es : FsEntries) (seg : String) (r : List String)
    (h : List.lookup seg es = none) : lookupPath es (seg :: r) = none := by
  simp only [lookupPath, h]

theorem lookupPath_congr_head (es1 es2 : FsEntries) (seg : String) (r : List String)
    (h : List.lookup seg es1 = List.lookup seg es2) :
    lookupPath es1 (seg :: r) = lookupPath es2 (seg :: r) := by
  simp only [lookupPath, h]

theorem lookupPath_head_some (es : FsEntries) (seg : String) (r : List String)
    (node : FsNode) (h : List.lookup seg es = some node) :
    lookupPath es (seg :: r) =
      (match r, node with
       | [], _ => some node
       | _ :: _, .file _ => none
       | _ :: _, .dir es' => lookupPath es' r) := by
  simp only [lookupPath, h]
  rcases r with _ | ⟨s, r2⟩ <;> rcases node with c | es2 <;> rfl

theorem lookupPath_nil_ne (es : FsEntries) (x : FsNode) :
    lookupPath es [] ≠ some x := by
  simp [lookupPath]

theorem lookupPath_cons_entry_ne (name : String) (node : FsNode) (rest : FsEntries)
    (pseg : String) (r : List String) (h : pseg ≠ name) :
    lookupPath ((name, node) :: rest) (pseg :: r) = lookupPath rest (pseg :: r) :=
  lookupPath_congr_head _ _ _ _ (lookup_cons_ne _ _ _ _ h)

theorem lookupPath_setEntry_ne_head (dest : FsEntries) (name pseg : String)
    (v : FsNode) (r : List String) (h : pseg ≠ name) :
    lookupPath (setEntry dest name v) (pseg :: r) = lookupPath dest (pseg :: r) :=
  lookupPath_congr_head _ _ _ _ (lookup_setEntry_ne dest name pseg v h)

theorem habs_dir_head (rest srcEs : FsEntries) (prest : List String) (name : String)
    (habs : lookupPath ((name, .dir srcEs) :: rest) (name :: prest) = none)
    (hne : prest ≠ []) : lookupPath srcEs prest = none := by
  rw [lookupPath_head_some _ _ _ _ (lookup_cons_self name _ rest)] at habs
  rcases prest with _ | ⟨q, r⟩
  · exact absurd rfl hne
  · exact habs

theorem frame_file_head_same (rest : FsEntries) (name : String) (c0 : List Nat)
    (prest : List String) (c : List Nat) (dest : FsEntries)
    (hnd : ∀ ents, List.lookup name dest = some (.dir ents) → False)
    (habs : lookupPath ((name, .file c0) :: rest) (name :: prest) = none)
    (hp : lookupPath dest (name :: prest) = some (.file c)) : False := by
  rw [lookupPath_head_some _ _ _ _ (lookup_cons_self name _ rest)] at habs
  rcases prest with _ | ⟨q2, r2⟩
  · simp at habs
  · rcases hlkd : List.lookup name dest with _ | node
    · rw [lookupPath_head_none _ _ _ hlkd] at hp
      cases hp
    · rcases node with fc | ents
      · rw [lookupPath_head_some _ _ _ _ hlkd] at hp
        simp at hp
      · exact hnd ents hlkd

theorem copyDirMerge_nil (dest : FsEntries) : copyDirMerge [] dest = (dest, none) := by
  rw [copyDirMerge.eq_def]

theorem copyDirMerge_cons_file (name : String) (c : List Nat) (rest dest : FsEntries) :
    copyDirMerge ((name, .file c) :: rest) dest =
      (match List.lookup name dest with
       | some (.dir _) => (dest, some (strAppend "EISDIR: " name))
       | _ => copyDirMerge rest (setEntry dest name (.file c))) := by
  rw [copyDirMerge.eq_def]

theorem copyDirMerge_cons_dir (name : String) (srcEs rest dest : FsEntries) :
    copyDirMerge ((name, .dir srcEs) :: rest) dest =
      (match List.lookup name dest with
       | some (.file _) => (dest, some (strAppend "EEXIST: " name))
       | some (.dir destEs) =>
         (match copyDirMerge srcEs destEs with
          | (merged, some e) => (setEntry dest name (.dir merged), some e)
          | (merged, none) => copyDirMerge rest (setEntry dest name (.dir merged)))
       | none =>
         (match copyDirMerge srcEs [] with
          | (merged, some e) => (setEntry dest name (.dir merged), some e)
          | (merged, none) => copyDirMerge rest (setEntry dest name (.dir merged)))) := by
  rw [copyDirMerge.eq_def]

theorem copyDirMerge_frame : ∀ (src dest : FsEntries),
    ∀ (out : FsEntries) (p : List String) (c : List Nat),
    wfEntries src = true → copyDirMerge src dest = (out, none) →
    lookupPath src p = none → lookupPath dest p = some (.file c) →
    lookupPath out p = some (.file c) := by
  intro src dest
  induction src, dest using copyDirMerge.induct with
  | case1 dest =>
    intro out p c _ hrun habs hp
    rw [copyDirMerge_nil] at hrun
    injection hrun with h1 h2
    subst h1
    exact hp
  | case2 name c0 rest dest ents hlk =>
    intro out p c hwf hrun habs hp
    rw [copyDirMerge_cons_file, hlk] at hrun
    simp at hrun
  | case3 name c0 rest dest hnd ih =>
    intro out p c hwf hrun habs hp
    obtain ⟨hlkrest, -, hwfrest⟩ := wfEntries_parts name (.file c0) rest hwf
    have hrun2 : copyDirMerge rest (setEntry dest name (.file c0)) = (out, none) := by
      rw [copyDirMerge_cons_file] at hrun
      rcases hlk : List.lookup name dest with _ | node
      · rw [hlk] at hrun
        exact hrun
      · rcases node with fc | ents
        · rw [hlk] at hrun
          exact hrun
        · exact (hnd ents hlk).elim
    rcases p with _ | ⟨pseg, prest⟩
    · exact absurd hp (lookupPath_nil_ne _ _)
    · by_cases hps : pseg = name
      · subst hps
        exact (frame_file_head_same rest pseg c0 prest c dest hnd habs hp).elim
      · have habs2 : lookupPath rest (pseg :: prest) = none := by
          rw [← lookupPath_cons_entry_ne name (.file c0) rest pseg prest hps]
          exact habs
        have hp2 : lookupPath (setEntry dest name (.file c0)) (pseg :: prest) =
            some (.file c) := by
          rw [lookupPath_setEntry_ne_head dest name pseg _ prest hps]
          exact hp
        exact ih out (pseg :: prest) c hwfrest hrun2 habs2 hp2
  | case4 name srcEs rest dest fc hlk =>
    intro out p c hwf hrun habs hp
    rw [copyDirMerge_cons_dir, hlk] at hrun
    simp at hrun
  | case5 name srcEs rest dest destEs hlk merged e hinner ihInner =>
    intro out p c hwf hrun habs hp
    have hrun2 : (match copyDirMerge srcEs destEs with
        | (m, some e2) => (setEntry dest name (.dir m), some e2)
        | (m, none) => copyDirMerge rest (setEntry dest name (.dir m))) = (out, none) := by
      rw [copyDirMerge_cons_dir, hlk] at hrun
      exact hrun
    rw [hinner] at hrun2
    simp at hrun2
  | case6 name srcEs rest dest destEs hlk merged hinner ihInner ihRest =>
    intro out p c hwf hrun habs hp
    obtain ⟨hlkrest, hwfdir, hwfrest⟩ := wfEntries_parts name (.dir srcEs) rest hwf
    have hwfsrc : wfEntries srcEs = true := hwfdir srcEs rfl
    have hrun2 : copyDirMerge rest (setEntry dest name (.dir merged)) = (out, none) := by
      have hrun3 : (match copyDirMerge srcEs destEs with
          | (m, some e2) => (setEntry dest name (.dir m), some e2)
          | (m, none) => copyDirMerge rest (setEntry dest name (.dir m))) = (out, none) := by
        rw [copyDirMerge_cons_dir, hlk] at hrun
        exact hrun
      rw [hinner] at hrun3
      exact hrun3
    rcases p with _ | ⟨pseg, prest⟩
    · exact absurd hp (lookupPath_nil_ne _ _)
    · by_cases hps : pseg = name
      · subst hps
        rw [lookupPath_head_some _ _ _ _ hlk] at hp
        rcases prest with _ | ⟨q2, r2⟩
        · simp at hp
        · have habs2 : lookupPath srcEs (q2 :: r2) = none :=
            habs_dir_head rest srcEs (q2 :: r2) pseg habs (by simp)
          have hmerged : lookupPath merged (q2 :: r2) = some (.file c) :=
            ihInner merged (q2 :: r2) c hwfsrc hinner habs2 hp
          have habs3 : lookupPath rest (pseg :: q2 :: r2) = none :=
            lookupPath_head_none rest pseg _ hlkrest
          have hp3 : lookupPath (setEntry dest pseg (.dir merged)) (pseg :: q2 :: r2) =
              some (.file c) := by
            rw [lookupPath_head_some _ _ _ _ (lookup_setEntry_self dest pseg _)]
            exact hmerged
          exact ihRest out (pseg :: q2 :: r2) c hwfrest hrun2 habs3 hp3
      · have habs2 : lookupPath rest (pseg :: prest) = none := by
          rw [← lookupPath_cons_entry_ne name (.dir srcEs) rest pseg prest hps]
          exact habs
        have hp2 : lookupPath (setEntry dest name (.dir merged)) (pseg :: prest) =
            some (.file c) := by
          rw [lookupPath_setEntry_ne_head dest name pseg _ prest hps]
          exact hp
        exact ihRest out (pseg :: prest) c hwfrest hrun2 habs2 hp2
  | case7 name srcEs rest dest hlk merged e hinner ihInner =>
    intro out p c hwf hrun habs hp
    have hrun2 : (match copyDirMerge srcEs [] with
        | (m, some e2) => (setEntry dest name (.dir m), some e2)
        | (m, none) => copyDirMerge rest (setEntry dest name (.dir m))) = (out, none) := by
      rw [copyDirMerge_cons_dir, hlk] at hrun
      exact hrun
    rw [hinner] at hrun2
    simp at hrun2
  | case8 name srcEs rest dest hlk merged hinner ihInner ihRest =>
    intro out p c hwf hrun habs hp
    obtain ⟨hlkrest, hwfdir, hwfrest⟩ := wfEntries_parts name (.dir srcEs) rest hwf
    have hrun2 : copyDirMerge rest (setEntry dest name (.dir merged)) = (out, none) := by
      have hrun3 : (match copyDirMerge srcEs [] with
          | (m, some e2) => (setEntry dest name (.dir m), some e2)
          | (m, none) => copyDirMerge rest (setEntry dest name (.dir m))) = (out, none) := by
        rw [copyDirMerge_cons_dir, hlk] at hrun
        exact hrun
      rw [hinner] at hrun3
      exact hrun3
    rcases p with _ | ⟨pseg, prest⟩
    · exact absurd hp (lookupPath_nil_ne _ _)
    · by_cases hps : pseg = name
      · subst hps
        rw [lookupPath_head_none _ _ _ hlk] at hp
        cases hp
      · have habs2 : lookupPath rest (pseg :: prest) = none := by
          rw [← lookupPath_cons_entry_ne name (.dir srcEs) rest pseg prest hps]
          exact habs
        have hp2 : lookupPath (setEntry dest name (.dir merged)) (pseg :: prest) =
            some (.file c) := by
          rw [lookupPath_setEntry_ne_head dest name pseg _ prest hps]
          exact hp
        exact ihRest out (pseg :: prest) c hwfrest hrun2 habs2 hp2

theorem copyProfileFiles_nil (dest : FsEntries) :
    copyProfileFiles [] dest = (dest, none) := rfl

theorem copyProfileFiles_cons (name : String) (node : FsNode) (rest dest : FsEntries) :
    copyProfileFiles ((name, node) :: rest) dest =
      (if name = "profile.json" then copyProfileFiles rest dest
       else match node with
         | .file c =>
           (match List.lookup name dest with
            | some (.dir _) => (dest, some (strAppend "EISDIR: " name))
            | _ => copyProfileFiles rest (setEntry dest name (.file c)))
         | .dir srcEs =>
           (match List.lookup name dest with
            | some (.file _) => (dest, some (strAppend "EEXIST: " name))
            | some (.dir destEs) =>
              (match copyDirMerge srcEs destEs with
               | (merged, some e) => (setEntry dest name (.dir merged), some e)
               | (merged, none) => copyProfileFiles rest (setEntry dest name (.dir merged)))
            | none =>
              (match copyDirMerge srcEs [] with
               | (merged, some e) => (setEntry dest name (.dir merged), some e)
               | (merged, none) =>
                 copyProfileFiles rest (setEntry dest name (.dir merged))))) := rfl

theorem copyProfileFiles_frame : ∀ (src dest out : FsEntries) (p : List String)
    (c : List Nat),
    wfEntries src = true → copyProfileFiles src dest = (out, none) →
    lookupPath src p = none → lookupPath dest p = some (.file c) →
    lookupPath out p = some (.file c) := by
  intro src
  induction src with
  | nil =>
    intro dest out p c _ hrun habs hp
    rw [copyProfileFiles_nil] at hrun
    injection hrun with h1 _
    subst h1
    exact hp
  | cons hd rest ih =>
    obtain ⟨name, node⟩ := hd
    intro dest out p c hwf hrun habs hp
    obtain ⟨hlkrest, hwfdir, hwfrest⟩ := wfEntries_parts name node rest hwf
    rw [copyProfileFiles_cons] at hrun
    by_cases hpj : name = "profile.json"
    · rw [if_pos hpj] at hrun
      rcases p with _ | ⟨pseg, prest⟩
      · exact absurd hp (lookupPath_nil_ne _ _)
      · by_cases hps : pseg = name
        · subst hps
          have habs2 : lookupPath rest (pseg :: prest) = none :=
            lookupPath_head_none rest pseg _ hlkrest
          exact ih dest out _ c hwfrest hrun habs2 hp
        · have habs2 : lookupPath rest (pseg :: prest) = none := by
            rw [← lookupPath_cons_entry_ne name node rest pseg prest hps]
            exact habs
          exact ih dest out _ c hwfrest hrun habs2 hp
    · rw [if_neg hpj] at hrun
      rcases node with c0 | srcEs
      · rcases hlk : List.lookup name dest with _ | nd
        · have hnd : ∀ ents, List.lookup name dest = some (.dir ents) → False := by
            intro ents he
            rw [he] at hlk
            cases hlk
          have hrun2 : copyProfileFiles rest (setEntry dest name (.file c0)) =
              (out, none) := by
            rw [hlk] at hrun
            exact hrun
          rcases p with _ | ⟨pseg, prest⟩
          · exact absurd hp (lookupPath_nil_ne _ _)
          · by_cases hps : pseg = name
            · subst hps
              exact (frame_file_head_same rest pseg c0 prest c dest hnd habs hp).elim
            · have habs2 : lookupPath rest (pseg :: prest) = none := by
                rw [← lookupPath_cons_entry_ne name (.file c0) rest pseg prest hps]
                exact habs
              have hp2 : lookupPath (setEntry dest name (.file c0)) (pseg :: prest) =
                  some (.file c) := by
                rw [lookupPath_setEntry_ne_head dest name pseg _ prest hps]
                exact hp
              exact ih _ out _ c hwfrest hrun2 habs2 hp2
        · rcases nd with fc | ents
          · have hnd : ∀ ents2, List.lookup name dest = some (.dir ents2) → False := by
              intro ents2 he
              rw [he] at hlk
              simp at hlk
            have hrun2 : copyProfileFiles rest (setEntry dest name (.file c0)) =
                (out, none) := by
              rw [hlk] at hrun
              exact hrun
            rcases p with _ | ⟨pseg, prest⟩
            · exact absurd hp (lookupPath_nil_ne _ _)
            · by_cases hps : pseg = name
              · subst hps
                exact (frame_file_head_same rest pseg c0 prest c dest hnd habs hp).elim
              · have habs2 : lookupPath rest (pseg :: prest) = none := by
                  rw [← lookupPath_cons_entry_ne name (.file c0) rest pseg prest hps]
                  exact habs
                have hp2 : lookupPath (setEntry dest name (.file c0)) (pseg :: prest) =
                    some (.file c) := by
                  rw [lookupPath_setEntry_ne_head dest name pseg _ prest hps]
                  exact hp
                exact ih _ out _ c hwfrest hrun2 habs2 hp2
          · rw [hlk] at hrun
            simp at hrun
      · have hwfsrc : wfEntries srcEs = true := hwfdir srcEs rfl
        rcases hlk : List.lookup name dest with _ | nd
        · rcases hinner : copyDirMerge srcEs [] with ⟨merged, err⟩
          rcases err with _ | e
          · have hrun2 : copyProfileFiles rest (setEntry dest name (.dir merged)) =
                (out, none) := by
              have hrun3 : (match copyDirMerge srcEs [] with
                  | (m, some e2) => (setEntry dest name (.dir m), some e2)
                  | (m, none) => copyProfileFiles rest (setEntry dest name (.dir m))) =
                  (out, none) := by
                rw [hlk] at hrun
                exact hrun
              rw [hinner] at hrun3
              exact hrun3
            rcases p with _ | ⟨pseg, prest⟩
            · exact absurd hp (lookupPath_nil_ne _ _)
            · by_cases hps : pseg = name
              · subst hps
                rw [lookupPath_head_none _ _ _ hlk] at hp
                cases hp
              · have habs2 : lookupPath rest (pseg :: prest) = none := by
                  rw [← lookupPath_cons_entry_ne name (.dir srcEs) rest pseg prest hps]
                  exact habs
                have hp2 : lookupPath (setEntry dest name (.dir merged)) (pseg :: prest) =
                    some (.file c) := by
                  rw [lookupPath_setEntry_ne_head dest name pseg _ prest hps]
                  exact hp
                exact ih _ out _ c hwfrest hrun2 habs2 hp2
          · have hrun3 : (match copyDirMerge srcEs [] with
                | (m, some e2) => (setEntry dest name (.dir m), some e2)
                | (m, none) => copyProfileFiles rest (setEntry dest name (.dir m))) =
                (out, none) := by
              rw [hlk] at hrun
              exact hrun
            rw [hinner] at hrun3
            simp at hrun3
        · rcases nd with fc | destEs
          · rw [hlk] at hrun
            simp at hrun
          · rcases hinner : copyDirMerge srcEs destEs with ⟨merged, err⟩
            rcases err with _ | e
            · have hrun2 : copyProfileFiles rest (setEntry dest name (.dir merged)) =
                  (out, none) := by
                have hrun3 : (match copyDirMerge srcEs destEs with
                    | (m, some e2) => (setEntry dest name (.dir m), some e2)
                    | (m, none) => copyProfileFiles rest (setEntry dest name (.dir m))) =
                    (out, none) := by
                  rw [hlk] at hrun
                  exact hrun
                rw [hinner] at hrun3
                exact hrun3
              rcases p with _ | ⟨pseg, prest⟩
              · exact absurd hp (lookupPath_nil_ne _ _)
              · by_cases hps : pseg = name
                · subst hps
                  rw [lookupPath_head_some _ _ _ _ hlk] at hp
                  rcases prest with _ | ⟨q2, r2⟩
                  · simp at hp
                  · have habs2 : lookupPath srcEs (q2 :: r2) = none :=
                      habs_dir_head rest srcEs (q2 :: r2) pseg habs (by simp)
                    have hmerged : lookupPath merged (q2 :: r2) = some (.file c) :=
                      copyDirMerge_frame srcEs destEs merged (q2 :: r2) c hwfsrc
                        hinner habs2 hp
                    have habs3 : lookupPath rest (pseg :: q2 :: r2) = none :=
                      lookupPath_head_none rest pseg _ hlkrest
                    have hp3 : lookupPath (setEntry dest pseg (.dir merged))
                        (pseg :: q2 :: r2) = some (.file c) := by
                      rw [lookupPath_head_some _ _ _ _ (lookup_setEntry_self dest pseg _)]
                      exact hmerged
                    exact ih _ out _ c hwfrest hrun2 habs3 hp3
                · have habs2 : lookupPath rest (pseg :: prest) = none := by
                    rw [← lookupPath_cons_entry_ne name (.dir srcEs) rest pseg prest hps]
                    exact habs
                  have hp2 : lookupPath (setEntry dest name (.dir merged))
                      (pseg :: prest) = some (.file c) := by
                    rw [lookupPath_setEntry_ne_head dest name pseg _ prest hps]
                    exact hp
                  exact ih _ out _ c hwfrest hrun2 habs2 hp2
            · have hrun3 : (match copyDirMerge srcEs destEs with
                  | (m, some e2) => (setEntry dest name (.dir m), some e2)
                  | (m, none) => copyProfileFiles rest (setEntry dest name (.dir m))) =
                  (out, none) := by
                rw [hlk] at hrun
                exact hrun
              rw [hinner] at hrun3
              simp at hrun3

theorem rmContentFiles_frame (names : List String) : ∀ (es out : FsEntries)
    (p : List String) (c : List Nat),
    rmContentFiles names es = (out, none) → (∀ x ∈ names, p ≠ [x]) →
    lookupPath es p = some (.file c) → lookupPath out p = some (.file c) := by
  induction names with
  | nil =>
    intro es out p c hrun _ hp
    rw [rmContentFiles] at hrun
    injection hrun with h1 _
    subst h1
    exact hp
  | cons f rest ih =>
    intro es out p c hrun hne hp
    rw [rmContentFiles] at hrun
    rcases hlf : List.lookup f es with _ | nd
    · rw [hlf] at hrun
      exact ih es out p c hrun (fun x hx => hne x (List.mem_cons_of_mem _ hx)) hp
    · rcases nd with fc | fes
      · rw [hlf] at hrun
        have hp2 : lookupPath (removeEntries es f) p = some (.file c) := by
          rcases p with _ | ⟨pseg, prest⟩
          · exact absurd hp (lookupPath_nil_ne _ _)
          · by_cases hps : pseg = f
            · subst hps
              rw [lookupPath_head_some _ _ _ _ hlf] at hp
              rcases prest with _ | ⟨q, r⟩
              · exact absurd rfl (hne pseg (List.mem_cons_self _ _))
              · cases hp
            · rw [lookupPath_congr_head _ es pseg prest
                (lookup_removeEntries_ne es f pseg hps)]
              exact hp
        exact ih _ out p c hrun (fun x hx => hne x (List.mem_cons_of_mem _ hx)) hp2
      · rw [hlf] at hrun
        simp at hrun

theorem cleanProfileContent_frame (es out : FsEntries) (p : List String) (c : List Nat)
    (hok : cleanProfileContent es = (out, none)) (hnc : inCleanSet p = false)
    (hp : lookupPath es p = some (.file c)) :
    lookupPath out p = some (.file c) := by
  rcases p with _ | ⟨x, rest⟩
  · exact absurd hp (lookupPath_nil_ne _ _)
  have hxdirs : contentDirs.contains x = false := by
    rcases rest with _ | ⟨y, r2⟩
    · have h2 : (contentDirs.contains x || contentFiles.contains x) = false := hnc
      exact (Bool.or_eq_false_iff.mp h2).1
    · have h2 : (contentDirs.contains x ||
          (x == "plugins" && !(PLUGIN_INFRA_DIRS.contains y))) = false := hnc
      exact (Bool.or_eq_false_iff.mp h2).1
  have hxmem : x ∉ contentDirs := by
    intro hm
    have hc : contentDirs.contains x = true := List.elem_iff.mpr hm
    rw [hxdirs] at hc
    cases hc
  have hstep1 : lookupPath (rmContentDirs es) (x :: rest) = some (.file c) := by
    rw [rmContentDirs,
      lookupPath_congr_head _ es x rest (lookup_foldl_removeEntries contentDirs es x hxmem)]
    exact hp
  have hnef : ∀ z ∈ contentFiles, (x :: rest) ≠ [z] := by
    intro z hz heq
    injection heq with hxz hrest
    subst hxz
    subst hrest
    have h2 : (contentDirs.contains x || contentFiles.contains x) = false := hnc
    have h3 := (Bool.or_eq_false_iff.mp h2).2
    have hc : contentFiles.contains x = true := List.elem_iff.mpr hz
    rw [h3] at hc
    cases hc
  rw [cleanProfileContent] at hok
  rcases hpl : List.lookup "plugins" (rmContentDirs es) with _ | pnode
  · rw [hpl] at hok
    exact rmContentFiles_frame contentFiles _ out _ c hok hnef hstep1
  · rcases pnode with pc | pes
    · rw [hpl] at hok
      simp at hok
    · rw [hpl] at hok
      have hstep2 : lookupPath
          (setEntry (rmContentDirs es) "plugins"
            (.dir (pes.filter fun e => PLUGIN_INFRA_DIRS.contains e.1)))
          (x :: rest) = some (.file c) := by
        by_cases hxp : x = "plugins"
        · subst hxp
          rw [lookupPath_head_some _ _ _ _ hpl] at hstep1
          rcases rest with _ | ⟨y, r2⟩
          · simp at hstep1
          · have h2 : (contentDirs.contains "plugins" ||
                ("plugins" == "plugins" && !(PLUGIN_INFRA_DIRS.contains y))) = false := hnc
            have h3 := (Bool.or_eq_false_iff.mp h2).2
            have hy : PLUGIN_INFRA_DIRS.contains y = true := by
              simpa using h3
            rw [lookupPath_head_some _ _ _ _ (lookup_setEntry_self _ _ _)]
            show lookupPath (pes.filter fun e => PLUGIN_INFRA_DIRS.contains e.1)
              (y :: r2) = some (.file c)
            rw [lookupPath_congr_head _ pes y r2
              (lookup_filter_key pes y _ hy)]
            exact hstep1
        · rw [lookupPath_setEntry_ne_head _ _ _ _ _ hxp]
          exact hstep1
      exact rmContentFiles_frame contentFiles _ out _ c hok hnef hstep2

theorem extractAfterBackup_frame (pes tes : FsEntries) (s : RestoreState)
    (hs : s.target = some (.dir tes)) (s2 : RestoreState) (p : List String)
    (c : List Nat) (hwf : wfEntries pes = true)
    (hrun : extractAfterBackup pes s = (s2, .ok ()))
    (hpre : lookupPath tes p = some (.file c))
    (hnc : inCleanSet p = false)
    (habs : lookupPath pes p = none) :
    ∃ out, s2.target = some (.dir out) ∧ lookupPath out p = some (.file c) := by
  rw [extractAfterBackup, hs] at hrun
  have hrun2 : extractInstall pes tes s.backup = (s2, .ok ()) := hrun
  rw [extractInstall] at hrun2
  rcases hcl : cleanProfileContent tes with ⟨cleaned, errc⟩
  rcases errc with _ | e
  · rw [hcl] at hrun2
    have hrun3 : (match copyProfileFiles pes cleaned with
        | (merged, some e2) =>
          (({ target := some (.dir merged), backup := s.backup } : RestoreState),
            Except.error e2)
        | (merged, none) =>
          (({ target := some (.dir merged), backup := s.backup } : RestoreState),
            Except.ok ())) = (s2, Except.ok ()) := hrun2
    rcases hcp : copyProfileFiles pes cleaned with ⟨merged, errm⟩
    rcases errm with _ | e2
    · rw [hcp] at hrun3
      injection hrun3 with h1 _
      subst h1
      refine ⟨merged, rfl, ?_⟩
      have hclean := cleanProfileContent_frame tes cleaned p c hcl hnc hpre
      exact copyProfileFiles_frame pes cleaned merged p c hwf hcp habs hclean
    · rw [hcp] at hrun3
      simp at hrun3
  · rw [hcl] at hrun2
    simp at hrun2

/-- Claim C1: after a completed `extractSnapshot`, every file that existed
in the target directory before the restore, lies outside the cleaned
content set (the fixed content directories, non-preserved `plugins`
entries, and the content files `CLAUDE.md` and `mcp.json`), and is not
present in the incoming profile, is still present with byte-identical
content.  The profile directory is assumed well-formed (distinct entry
names per directory, as on a real filesystem). -/
theorem extractSnapshot_merge_frame (pes tes : FsEntries) (b0 : Option FsNode)
    (br bok : Bool) (s2 : RestoreState) (p : List String) (c : List Nat)
    (hwf : wfEntries pes = true)
    (hrun : extractSnapshot (some (.dir pes)) br bok
      { target := some (.dir tes), backup := b0 } = (s2, .ok ()))
    (hpre : lookupPath tes p = some (.file c))
    (hnc : inCleanSet p = false)
    (habs : lookupPath pes p = none) :
    ∃ out, s2.target = some (.dir out) ∧ lookupPath out p = some (.file c) := by
  rw [extractSnapshot] at hrun
  rcases hpj : (List.lookup "profile.json" pes).isSome with _ | _
  · rw [hpj] at hrun
    simp at hrun
  · rw [hpj] at hrun
    simp only [if_true] at hrun
    rcases br with _ | _
    · simp only [Bool.false_and, Bool.false_eq_true, if_false] at hrun
      exact extractAfterBackup_frame pes tes _ rfl s2 p c hwf hrun hpre hnc habs
    · simp only [Option.isSome_some, Bool.and_true, Bool.true_and, if_true] at hrun
      rcases bok with _ | _
      · simp at hrun
      · simp only [if_true] at hrun
        exact extractAfterBackup_frame pes tes _ rfl s2 p c hwf hrun hpre hnc habs

theorem extractSnapshot_merge_frame_witness :
    ∃ out,
      (({ target := some (.dir [("settings.json", FsNode.file [9]),
            ("CLAUDE.md", FsNode.file [5])]), backup := none } : RestoreState)).target =
        some (.dir out) ∧
      lookupPath out ["settings.json"] = some (.file [9]) :=
  extractSnapshot_merge_frame
    [("profile.json", FsNode.file [0]), ("CLAUDE.md", FsNode.file [5])]
    [("settings.json", FsNode.file [9]), ("CLAUDE.md", FsNode.file [1])]
    none false false
    { target := some (.dir [("settings.json", FsNode.file [9]),
        ("CLAUDE.md", FsNode.file [5])]), backup := none }
    ["settings.json"] [9]
    (by simp only [wfEntries_cons, wfEntries_nil]; decide)
    rfl rfl (by decide) rfl
